import Mathlib

/-!
Verification of the chained key-value store engine (`ChainKvStore` in
`pkg/kvstore`): a shallow embedding of the read/write fan-out algorithms over
an ordered chain of tiers, the optional negative-result ("missing") cache,
batch refill bookkeeping, and the partial-failure policy that distinguishes
tolerable non-terminal tier errors from fatal terminal-tier errors.

The engine code (`Contains`, `Get`, `GetBatch`, `Put`, `PutBatch`) is
translated statement by statement from the source.  Concrete tier
implementations, the in-memory store backing the negative cache, and the
reflection helpers that coerce caller payloads are out-of-scope collaborators
of the engine; they are modelled from the specification's tier contract and
are marked as such in their doc comments.
-/

deriving instance DecidableEq for Except

namespace Gosoline

/-- Dynamic values flowing through the engine.  The source handles keys and
values as empty-interface values; the model carries the populations the
properties need: strings and integers. -/
inductive GoVal where
  | str : String → GoVal
  | int : Int → GoVal
deriving DecidableEq, Repr

/-- Modelled from the spec: every key must be hashable / stringifiable by every
tier (data model, section 3); the in-memory negative cache keys its entries by
this string form. -/
def goKeyString : GoVal → String
  | .str s => s
  | .int n => toString n

/-- A caller-supplied payload before coercion: a slice of keys, a keyed map of
values, or some other shape that the reflection helpers reject. -/
inductive GoPayload where
  | slice : List GoVal → GoPayload
  | kvmap : List (GoVal × GoVal) → GoPayload
  | other : GoPayload
deriving DecidableEq, Repr

/-- Errors an engine operation can surface to its caller: the two payload
coercion failures and a wrapped terminal-tier failure carrying the identity
(chain index) of the tier that failed. -/
inductive ChainError where
  | coerceKeys
  | coerceValues
  | tierFailed (i : Nat)
deriving DecidableEq, Repr

/-- Modelled from the spec: `refl.InterfaceToInterfaceSlice` normalizes the
caller's keys into an ordered sequence and fails on payloads that are not
slice-like (read path step 1; error taxonomy `PayloadCoercionFailure`). -/
def interfaceToInterfaceSlice : GoPayload → Except ChainError (List GoVal)
  | .slice l => .ok l
  | _ => .error .coerceKeys

/-- Modelled from the spec: `refl.InterfaceToMapInterfaceInterface` normalizes
the caller's values container into a keyed map form and fails otherwise. -/
def interfaceToMapInterfaceInterface :
    GoPayload → Except ChainError (List (GoVal × GoVal))
  | .kvmap m => .ok m
  | _ => .error .coerceValues

/-- Lookup in an association list keyed by `GoVal` (Go map read). -/
def assocFind (m : List (GoVal × GoVal)) (k : GoVal) : Option GoVal :=
  match m with
  | [] => none
  | p :: rest => if p.1 = k then some p.2 else assocFind rest k

/-- Insert-or-overwrite in an association list keyed by `GoVal` (Go map write). -/
def assocPut (m : List (GoVal × GoVal)) (k v : GoVal) : List (GoVal × GoVal) :=
  match m with
  | [] => [(k, v)]
  | p :: rest => if p.1 = k then (k, v) :: rest else p :: assocPut rest k v

/-- A tier populates the caller's destination only when it is a keyed map;
other payload shapes are outside the tier contract and are left unchanged. -/
def payloadInsert (p : GoPayload) (k v : GoVal) : GoPayload :=
  match p with
  | .kvmap m => .kvmap (assocPut m k v)
  | q => q

/-- Modelled from the spec (tier contract, section 4.1): one backing store of
the chain, with its keyed contents and one failure switch per operation.
Concrete tier implementations are out-of-scope collaborators of the engine. -/
structure Tier where
  store : List (GoVal × GoVal)
  failContains : Bool
  failGet : Bool
  failGetBatch : Bool
  failPut : Bool
  failPutBatch : Bool
deriving DecidableEq, Repr

/-- A tier whose operations all succeed. -/
def Tier.allOk (t : Tier) : Prop :=
  t.failContains = false ∧ t.failGet = false ∧ t.failGetBatch = false ∧
    t.failPut = false ∧ t.failPutBatch = false

instance (t : Tier) : Decidable t.allOk := by
  unfold Tier.allOk
  infer_instance

/-- Placeholder tier used only to give `List.getD` a default; the engine never
reads it on an in-bounds index. -/
def dummyTier : Tier := ⟨[], false, false, false, false, false⟩

/-- Modelled from the spec: `Contains(ctx, key) -> (exists, err)`. -/
def Tier.Contains (t : Tier) (k : GoVal) : Except String Bool :=
  if t.failContains then .error "tier error" else .ok (assocFind t.store k).isSome

/-- Modelled from the spec: `Get(ctx, key, destination) -> (exists, err)`,
writing the value into the destination iff it exists. -/
def Tier.Get (t : Tier) (k : GoVal) : Except String (Option GoVal) :=
  if t.failGet then .error "tier error" else .ok (assocFind t.store k)

/-- The subset of the asked keys a tier does not hold (what its batch read
reports missing). -/
def tierMissing (t : Tier) (todo : List GoVal) : List GoVal :=
  todo.filter (fun k => (assocFind t.store k).isNone)

/-- The caller's destination after a tier's batch read populated every asked
key it holds. -/
def tierFill (t : Tier) (todo : List GoVal) (vp : GoPayload) : GoPayload :=
  (todo.filterMap (fun k => (assocFind t.store k).map (fun v => (k, v)))).foldl
    (fun vp q => payloadInsert vp q.1 q.2) vp

/-- Modelled from the spec: `GetBatch(ctx, keys, destinationMap)` populates the
destination for found entries and returns the subset of input keys not found. -/
def Tier.GetBatch (t : Tier) (todo : List GoVal) (values : GoPayload) :
    Except String (List GoVal × GoPayload) :=
  if t.failGetBatch then .error "tier error"
  else .ok (tierMissing t todo, tierFill t todo values)

/-- Modelled from the spec: `Put(ctx, key, value) -> err`. -/
def Tier.Put (t : Tier) (k v : GoVal) : Except String Tier :=
  if t.failPut then .error "tier error"
  else .ok { t with store := assocPut t.store k v }

/-- Modelled from the spec: `PutBatch(ctx, valuesMap) -> err` on an already
keyed batch of pairs (as built by the engine's backfill phase). -/
def Tier.PutBatchPairs (t : Tier) (pairs : List (GoVal × GoVal)) :
    Except String Tier :=
  if t.failPutBatch then .error "tier error"
  else .ok { t with store := pairs.foldl (fun st q => assocPut st q.1 q.2) t.store }

/-- Modelled from the spec: a tier receiving the caller's raw batch-write
payload.  The tier contract defines `PutBatch` on keyed maps; on payload
shapes outside the contract the model leaves the store unchanged. -/
def Tier.PutBatchPayload (t : Tier) (p : GoPayload) : Except String Tier :=
  match p with
  | .kvmap m => t.PutBatchPairs m
  | _ => if t.failPutBatch then .error "tier error" else .ok t

/-- Modelled from the spec: the in-process negative cache (an `InMemoryKvStore`
used only for negative-result storage).  It is a keyed set of stringified keys
with one failure switch per operation (error taxonomy `NegativeCacheFailure`
allows an error from the negative cache on any operation). -/
structure MissingCache where
  keys : List String
  failContains : Bool
  failGetBatch : Bool
  failPut : Bool
  failPutBatch : Bool
  failDelete : Bool
deriving DecidableEq, Repr

/-- Insert a stringified key into the negative cache's key set. -/
def insertKey (ks : List String) (s : String) : List String :=
  if ks.contains s then ks else s :: ks

/-- Modelled from the spec: negative-cache membership test. -/
def MissingCache.Contains (mc : MissingCache) (k : GoVal) : Except String Bool :=
  if mc.failContains then .error "cache error"
  else .ok (mc.keys.contains (goKeyString k))

/-- Modelled from the spec: negative-cache batch read.  It returns the keys not
found in the cache and populates a local string-keyed map whose keys are the
stringified cache hits (`map[string]interface` destination in the source). -/
def MissingCache.GetBatch (mc : MissingCache) (todo : List GoVal) :
    Except String (List GoVal × List String) :=
  if mc.failGetBatch then .error "cache error"
  else
    .ok (todo.filter (fun k => !(mc.keys.contains (goKeyString k))),
      ((todo.filter (fun k => mc.keys.contains (goKeyString k))).map goKeyString).dedup)

/-- Modelled from the spec: record one key as confirmed missing (the stored
value is the sentinel, so only key membership is modelled). -/
def MissingCache.Put (mc : MissingCache) (k : GoVal) : Except String MissingCache :=
  if mc.failPut then .error "cache error"
  else .ok { mc with keys := insertKey mc.keys (goKeyString k) }

/-- Modelled from the spec: record a batch of keys as confirmed missing. -/
def MissingCache.PutBatchKeys (mc : MissingCache) (todo : List GoVal) :
    Except String MissingCache :=
  if mc.failPutBatch then .error "cache error"
  else .ok { mc with keys := todo.foldl (fun a k => insertKey a (goKeyString k)) mc.keys }

/-- Modelled from the spec: erase one key from the negative cache. -/
def MissingCache.Delete (mc : MissingCache) (k : GoVal) : Except String MissingCache :=
  if mc.failDelete then .error "cache error"
  else .ok { mc with keys := mc.keys.erase (goKeyString k) }

/-- One observable access of the engine to a tier or to the negative cache,
recorded in program order.  `tierGetBatch` records the keys asked and the
keys the tier reported missing; `tierGetBatchErr` records a failed batch
read; `tierPutBatch` records the keys written. -/
inductive Event where
  | tierContains (i : Nat) (k : GoVal)
  | tierGet (i : Nat) (k : GoVal)
  | tierGetBatch (i : Nat) (asked missing : List GoVal)
  | tierGetBatchErr (i : Nat) (asked : List GoVal)
  | tierPut (i : Nat) (k : GoVal)
  | tierPutBatch (i : Nat) (ks : List GoVal)
  | cacheContains (k : GoVal)
  | cacheGetBatch (ks : List GoVal)
  | cachePut (k : GoVal)
  | cachePutBatch (ks : List GoVal)
  | cacheDelete (k : GoVal)
deriving DecidableEq, Repr

/-- Does an event touch a tier of the chain (as opposed to the negative cache)? -/
def Event.isTierEvent : Event → Bool
  | .tierContains _ _ => true
  | .tierGet _ _ => true
  | .tierGetBatch _ _ _ => true
  | .tierGetBatchErr _ _ => true
  | .tierPut _ _ => true
  | .tierPutBatch _ _ => true
  | _ => false

/-- Is an event a write into a tier or into the negative cache? -/
def Event.isWriteEvent : Event → Bool
  | .tierPut _ _ => true
  | .tierPutBatch _ _ => true
  | .cachePut _ => true
  | .cachePutBatch _ => true
  | .cacheDelete _ => true
  | _ => false

/-- The chained store: the ordered tier chain, the missing-cache switch and the
negative cache itself (`ChainKvStore` in the source). -/
structure ChainKvStore where
  chain : List Tier
  missingCacheEnabled : Bool
  missingCache : MissingCache
deriving DecidableEq, Repr

/-- Result of an engine operation: the returned value or error, the post-state
of chain and negative cache, and the trace of tier / cache accesses. -/
structure OpRes (α : Type) where
  result : Except ChainError α
  state : ChainKvStore
  trace : List Event
deriving DecidableEq

/-- Outcome of the `Contains` chain walk: found at some tier, absent from every
tier, or failed at the terminal tier. -/
inductive ContainsOut where
  | found
  | absent
  | failed (i : Nat)
deriving DecidableEq, Repr

/-- The `Contains` chain walk (source loop over `s.chain`): stop on the first
hit; a tier error is fatal only at the last element, otherwise it is logged
and treated as absence. -/
def containsWalk (k : GoVal) : List Tier → Nat → ContainsOut × List Event
  | [], _ => (.absent, [])
  | t :: rest, i =>
    match t.Contains k with
    | .error _ =>
      if rest.isEmpty then (.failed i, [Event.tierContains i k])
      else
        let r := containsWalk k rest (i + 1)
        (r.1, Event.tierContains i k :: r.2)
    | .ok true => (.found, [Event.tierContains i k])
    | .ok false =>
      let r := containsWalk k rest (i + 1)
      (r.1, Event.tierContains i k :: r.2)

/-- Engine `Contains`: negative-cache short circuit, chain walk, and
caching of a confirmed miss, exactly as in the source. -/
def ChainKvStore.Contains (s : ChainKvStore) (k : GoVal) : OpRes Bool :=
  let pre : List Event := if s.missingCacheEnabled then [Event.cacheContains k] else []
  let hit : Bool :=
    if s.missingCacheEnabled then
      match s.missingCache.Contains k with
      | .ok b => b
      | .error _ => false
    else false
  if hit then ⟨.ok false, s, pre⟩
  else
    let w := containsWalk k s.chain 0
    match w.1 with
    | .failed i => ⟨.error (.tierFailed i), s, pre ++ w.2⟩
    | .found => ⟨.ok true, s, pre ++ w.2⟩
    | .absent =>
      if s.missingCacheEnabled then
        match s.missingCache.Put k with
        | .ok mc' => ⟨.ok false, ⟨s.chain, s.missingCacheEnabled, mc'⟩,
            pre ++ w.2 ++ [Event.cachePut k]⟩
        | .error _ => ⟨.ok false, s, pre ++ w.2 ++ [Event.cachePut k]⟩
      else ⟨.ok false, s, pre ++ w.2⟩

/-- Outcome of the `Get` chain walk: found at index `i` with value `v`, absent
everywhere, or failed at the terminal tier. -/
inductive GetOut where
  | found (i : Nat) (v : GoVal)
  | absent
  | failed (i : Nat)
deriving DecidableEq, Repr

/-- The `Get` chain walk: stop at the first tier holding the key; an error is
fatal only at the terminal tier. -/
def getWalk (k : GoVal) : List Tier → Nat → GetOut × List Event
  | [], _ => (.absent, [])
  | t :: rest, i =>
    match t.Get k with
    | .error _ =>
      if rest.isEmpty then (.failed i, [Event.tierGet i k])
      else
        let r := getWalk k rest (i + 1)
        (r.1, Event.tierGet i k :: r.2)
    | .ok (some v) => (.found i v, [Event.tierGet i k])
    | .ok none =>
      let r := getWalk k rest (i + 1)
      (r.1, Event.tierGet i k :: r.2)

/-- Upward backfill after a `Get` hit at index `n` (source: the loop
`for i := foundInIndex - 1; i >= 0; i--` calling `Put`); backfill errors are
logged and ignored. -/
def getPropagate (k v : GoVal) : List Tier → Nat → List Tier × List Event
  | chain, 0 => (chain, [])
  | chain, n + 1 =>
    let t := chain.getD n dummyTier
    match t.Put k v with
    | .ok t' =>
      let r := getPropagate k v (chain.set n t') n
      (r.1, Event.tierPut n k :: r.2)
    | .error _ =>
      let r := getPropagate k v chain n
      (r.1, Event.tierPut n k :: r.2)

/-- Engine `Get`: negative-cache short circuit, chain walk, caching of a
confirmed miss, and best-effort upward backfill, exactly as in the source.
The returned value is `some v` for the source's `(true, nil)` with the
destination populated, `none` for `(false, nil)`. -/
def ChainKvStore.Get (s : ChainKvStore) (k : GoVal) : OpRes (Option GoVal) :=
  let pre : List Event := if s.missingCacheEnabled then [Event.cacheContains k] else []
  let hit : Bool :=
    if s.missingCacheEnabled then
      match s.missingCache.Contains k with
      | .ok b => b
      | .error _ => false
    else false
  if hit then ⟨.ok none, s, pre⟩
  else
    let w := getWalk k s.chain 0
    match w.1 with
    | .failed i => ⟨.error (.tierFailed i), s, pre ++ w.2⟩
    | .absent =>
      if s.missingCacheEnabled then
        match s.missingCache.Put k with
        | .ok mc' => ⟨.ok none, ⟨s.chain, s.missingCacheEnabled, mc'⟩,
            pre ++ w.2 ++ [Event.cachePut k]⟩
        | .error _ => ⟨.ok none, s, pre ++ w.2 ++ [Event.cachePut k]⟩
      else ⟨.ok none, s, pre ++ w.2⟩
    | .found i v =>
      let bf := getPropagate k v s.chain i
      ⟨.ok (some v), ⟨bf.1, s.missingCacheEnabled, s.missingCache⟩,
        pre ++ w.2 ++ bf.2⟩

/-- The `Put` write loop over all tiers in chain order: a non-terminal error
skips the tier and continues; a terminal error aborts with the failing index. -/
def putLoop (k v : GoVal) : List Tier → Nat → Option Nat × List Tier × List Event
  | [], _ => (none, [], [])
  | t :: rest, i =>
    match t.Put k v with
    | .ok t' =>
      let r := putLoop k v rest (i + 1)
      (r.1, t' :: r.2.1, Event.tierPut i k :: r.2.2)
    | .error _ =>
      if rest.isEmpty then (some i, t :: rest, [Event.tierPut i k])
      else
        let r := putLoop k v rest (i + 1)
        (r.1, t :: r.2.1, Event.tierPut i k :: r.2.2)

/-- Engine `Put`: write every tier in chain order, then erase the key
from the negative cache (invalidation errors are logged and ignored). -/
def ChainKvStore.Put (s : ChainKvStore) (k v : GoVal) : OpRes Unit :=
  let r := putLoop k v s.chain 0
  match r.1 with
  | some i => ⟨.error (.tierFailed i), ⟨r.2.1, s.missingCacheEnabled, s.missingCache⟩, r.2.2⟩
  | none =>
    if s.missingCacheEnabled then
      match s.missingCache.Delete k with
      | .ok mc' => ⟨.ok (), ⟨r.2.1, s.missingCacheEnabled, mc'⟩,
          r.2.2 ++ [Event.cacheDelete k]⟩
      | .error _ => ⟨.ok (), ⟨r.2.1, s.missingCacheEnabled, s.missingCache⟩,
          r.2.2 ++ [Event.cacheDelete k]⟩
    else ⟨.ok (), ⟨r.2.1, s.missingCacheEnabled, s.missingCache⟩, r.2.2⟩

/-- The keys a batch-write payload carries (for the access trace). -/
def payloadKeys : GoPayload → List GoVal
  | .kvmap m => m.map (·.1)
  | _ => []

/-- The `PutBatch` write loop over all tiers in chain order with the caller's
raw payload; non-terminal errors are skipped, a terminal error aborts. -/
def putBatchLoop (p : GoPayload) : List Tier → Nat → Option Nat × List Tier × List Event
  | [], _ => (none, [], [])
  | t :: rest, i =>
    match t.PutBatchPayload p with
    | .ok t' =>
      let r := putBatchLoop p rest (i + 1)
      (r.1, t' :: r.2.1, Event.tierPutBatch i (payloadKeys p) :: r.2.2)
    | .error _ =>
      if rest.isEmpty then (some i, t :: rest, [Event.tierPutBatch i (payloadKeys p)])
      else
        let r := putBatchLoop p rest (i + 1)
        (r.1, t :: r.2.1, Event.tierPutBatch i (payloadKeys p) :: r.2.2)

/-- Erase each key of a batch write from the negative cache; per-key errors
are logged and ignored. -/
def deleteAll (mc : MissingCache) : List GoVal → MissingCache × List Event
  | [] => (mc, [])
  | k :: ks =>
    let mc1 := match mc.Delete k with | .ok m => m | .error _ => mc
    let r := deleteAll mc1 ks
    (r.1, Event.cacheDelete k :: r.2)

/-- Engine `PutBatch`: write every tier in chain order with the caller's
payload; afterwards, when the missing cache is enabled, coerce the payload to
a keyed map and erase each of its keys from the negative cache.  A coercion
failure is returned (after the tier writes, as in the source). -/
def ChainKvStore.PutBatch (s : ChainKvStore) (values : GoPayload) : OpRes Unit :=
  let r := putBatchLoop values s.chain 0
  match r.1 with
  | some i => ⟨.error (.tierFailed i), ⟨r.2.1, s.missingCacheEnabled, s.missingCache⟩, r.2.2⟩
  | none =>
    if s.missingCacheEnabled then
      match interfaceToMapInterfaceInterface values with
      | .error e => ⟨.error e, ⟨r.2.1, s.missingCacheEnabled, s.missingCache⟩, r.2.2⟩
      | .ok mii =>
        let d := deleteAll s.missingCache (mii.map (·.1))
        ⟨.ok (), ⟨r.2.1, s.missingCacheEnabled, d.1⟩, r.2.2 ++ d.2⟩
    else ⟨.ok (), ⟨r.2.1, s.missingCacheEnabled, s.missingCache⟩, r.2.2⟩

/-- State of the `GetBatch` chain walk when it stops: the per-tier refill sets
(with absolute tier indices, in walk order), the final `todo`, the caller's
values container after tier populations, the source's `foundInIndex`, the
index of the terminal tier if it failed, and the access trace. -/
structure BatchWalkRes where
  refills : List (Nat × List GoVal)
  todo : List GoVal
  values : GoPayload
  foundIn : Nat
  failed : Option Nat
  trace : List Event
deriving DecidableEq, Repr

/-- The `GetBatch` chain walk (source loop over `s.chain`): each tier is asked
for the still-missing `todo`; on success its missing subset becomes
`refill[i]` and the new `todo`, with an early break when `todo` empties; on a
non-terminal error `refill[i]` is set to the whole `todo`, a warning is
logged and the walk continues with the same `todo`; a terminal error aborts
the walk. -/
def batchWalk : List Tier → Nat → List GoVal → GoPayload → BatchWalkRes
  | [], i, todo, values => ⟨[], todo, values, i, none, []⟩
  | t :: rest, i, todo, values =>
    match t.GetBatch todo values with
    | .error _ =>
      if rest.isEmpty then
        ⟨[], todo, values, i, some i, [Event.tierGetBatchErr i todo]⟩
      else
        let r := batchWalk rest (i + 1) todo values
        ⟨(i, todo) :: r.refills, r.todo, r.values, r.foundIn, r.failed,
          Event.tierGetBatchErr i todo :: r.trace⟩
    | .ok (missing, values') =>
      if missing.isEmpty then
        ⟨[(i, missing)], missing, values', i, none, [Event.tierGetBatch i todo missing]⟩
      else
        let r := batchWalk rest (i + 1) missing values'
        ⟨(i, missing) :: r.refills, r.todo, r.values, r.foundIn, r.failed,
          Event.tierGetBatch i todo missing :: r.trace⟩

/-- Look up `refill[i]` (a missing entry is the empty list, as for a Go map). -/
def refillLookup (rs : List (Nat × List GoVal)) (i : Nat) : List GoVal :=
  ((rs.find? (fun p => decide (p.1 = i))).map (·.2)).getD []

/-- The `GetBatch` backfill phase (source loop
`for i := foundInIndex - 1; i >= 0; i--`): write to tier `i` the keys of
`refill[i]` that are present in the coerced result map; empty batches are
skipped and write errors are logged and ignored. -/
def batchBackfill (mii : List (GoVal × GoVal)) (rs : List (Nat × List GoVal)) :
    List Tier → Nat → List Tier × List Event
  | chain, 0 => (chain, [])
  | chain, n + 1 =>
    let rf := refillLookup rs n
    if rf.isEmpty then batchBackfill mii rs chain n
    else
      let pairs := rf.filterMap (fun k => (assocFind mii k).map (fun v => (k, v)))
      if pairs.isEmpty then batchBackfill mii rs chain n
      else
        let t := chain.getD n dummyTier
        let t' := match t.PutBatchPairs pairs with | .ok u => u | .error _ => t
        let r := batchBackfill mii rs (chain.set n t') n
        (r.1, Event.tierPutBatch n (pairs.map (·.1)) :: r.2)

/-- Result of `GetBatch`: the missing keys or an error, the post-state, the
caller's values container as it stands when the call returns (also on the
error paths, since the source mutates it in place), and the access trace. -/
structure BatchRes where
  result : Except ChainError (List GoVal)
  state : ChainKvStore
  values : GoPayload
  trace : List Event
deriving DecidableEq, Repr

/-- Recording of the still-missing keys in the negative cache at the end of
`GetBatch` (step: store missing keys if enabled); errors are logged only. -/
def cacheWriteBack (s : ChainKvStore) (todo : List GoVal) : MissingCache × List Event :=
  if s.missingCacheEnabled && !todo.isEmpty then
    match s.missingCache.PutBatchKeys todo with
    | .ok mc' => (mc', [Event.cachePutBatch todo])
    | .error _ => (s.missingCache, [Event.cachePutBatch todo])
  else (s.missingCache, [])

/-- The negative-cache step at the start of `GetBatch`: the batch read that
returns the reduced `todo`, the stringified `cachedMissing` entries and the
cache access events (on a cache read error, the error is logged and the
cache's returned nil `todo` is kept, as in the source). -/
def cachePhase (s : ChainKvStore) (todo0 : List GoVal) :
    List GoVal × List GoVal × List Event :=
  if s.missingCacheEnabled then
    match s.missingCache.GetBatch todo0 with
    | .ok (still, hits) => (still, hits.map GoVal.str, [Event.cacheGetBatch todo0])
    | .error _ => ([], [], [Event.cacheGetBatch todo0])
  else (todo0, [], [])

/-- Engine `GetBatch`, step by step as in the source: coerce the keys
payload (fatal on failure, before anything else); run the negative-cache batch
read when enabled; return early when `todo` is empty; walk the chain; coerce
the values container to a keyed map (fatal on failure, after the walk);
backfill downward from `foundInIndex - 1`; record the still-missing keys in
the negative cache; finally return `todo ++ cachedMissing`. -/
def ChainKvStore.GetBatch (s : ChainKvStore) (keys values : GoPayload) : BatchRes :=
  match interfaceToInterfaceSlice keys with
  | .error e => ⟨.error e, s, values, []⟩
  | .ok todo0 =>
    let cs := cachePhase s todo0
    let todo := cs.1
    let cachedMissing := cs.2.1
    let pre := cs.2.2
    if todo.isEmpty then ⟨.ok cachedMissing, s, values, pre⟩
    else
      let w := batchWalk s.chain 0 todo values
      match w.failed with
      | some j => ⟨.error (.tierFailed j), s, w.values, pre ++ w.trace⟩
      | none =>
        match interfaceToMapInterfaceInterface w.values with
        | .error e => ⟨.error e, s, w.values, pre ++ w.trace⟩
        | .ok mii =>
          let bf := batchBackfill mii w.refills s.chain w.foundIn
          let cw := cacheWriteBack s w.todo
          ⟨.ok (w.todo ++ cachedMissing), ⟨bf.1, s.missingCacheEnabled, cw.1⟩,
            w.values, pre ++ w.trace ++ bf.2 ++ cw.2⟩

/-! ### Basic lemmas: association maps and payloads -/

/-- Whether a payload is a keyed map. -/
def isKvmap : GoPayload → Bool
  | .kvmap _ => true
  | _ => false

/-- Whether a payload, as a keyed map, holds an entry for `k`. -/
def payloadHas (p : GoPayload) (k : GoVal) : Bool :=
  match p with
  | .kvmap m => (assocFind m k).isSome
  | _ => false

theorem assocFind_assocPut_self (m : List (GoVal × GoVal)) (k v : GoVal) :
    assocFind (assocPut m k v) k = some v := by
  induction m with
  | nil => simp [assocPut, assocFind]
  | cons p rest ih =>
    by_cases h : p.1 = k
    · simp [assocPut, h, assocFind]
    · simp [assocPut, h, assocFind, ih]

theorem assocFind_assocPut_ne (m : List (GoVal × GoVal)) (k v k' : GoVal)
    (h : k' ≠ k) : assocFind (assocPut m k v) k' = assocFind m k' := by
  have hk : ¬ (k = k') := fun hh => h hh.symm
  induction m with
  | nil => simp [assocPut, assocFind, hk]
  | cons p rest ih =>
    by_cases hp : p.1 = k
    · have hp' : ¬ (p.1 = k') := by rw [hp]; exact hk
      simp only [assocPut, if_pos hp, assocFind, if_neg hk, if_neg hp']
    · simp only [assocPut, if_neg hp, assocFind]
      by_cases hp' : p.1 = k'
      · simp [hp']
      · simp [hp', ih]

theorem assocFind_assocPut_isSome (m : List (GoVal × GoVal)) (k v k' : GoVal)
    (h : (assocFind m k').isSome = true) :
    (assocFind (assocPut m k v) k').isSome = true := by
  by_cases hk : k' = k
  · subst hk; simp [assocFind_assocPut_self]
  · rw [assocFind_assocPut_ne m k v k' hk]; exact h

theorem isKvmap_payloadInsert (p : GoPayload) (k v : GoVal) :
    isKvmap (payloadInsert p k v) = isKvmap p := by
  cases p <;> simp [payloadInsert, isKvmap]

theorem payloadHas_payloadInsert_self (p : GoPayload) (k v : GoVal)
    (h : isKvmap p = true) : payloadHas (payloadInsert p k v) k = true := by
  cases p <;> simp_all [payloadInsert, isKvmap, payloadHas, assocFind_assocPut_self]

theorem payloadHas_payloadInsert_mono (p : GoPayload) (k v k' : GoVal)
    (h : payloadHas p k' = true) : payloadHas (payloadInsert p k v) k' = true := by
  cases p <;> simp_all [payloadInsert, payloadHas, assocFind_assocPut_isSome]

theorem isKvmap_foldl_payloadInsert (pairs : List (GoVal × GoVal)) (p : GoPayload) :
    isKvmap (pairs.foldl (fun vp q => payloadInsert vp q.1 q.2) p) = isKvmap p := by
  induction pairs generalizing p with
  | nil => rfl
  | cons q rest ih => simp [List.foldl_cons, ih, isKvmap_payloadInsert]

theorem payloadHas_foldl_mono (pairs : List (GoVal × GoVal)) (p : GoPayload)
    (k : GoVal) (h : payloadHas p k = true) :
    payloadHas (pairs.foldl (fun vp q => payloadInsert vp q.1 q.2) p) k = true := by
  induction pairs generalizing p with
  | nil => exact h
  | cons q rest ih =>
    exact ih _ (payloadHas_payloadInsert_mono _ _ _ _ h)

theorem payloadHas_foldl_of_mem : ∀ (pairs : List (GoVal × GoVal)) (p : GoPayload)
    (k v : GoVal), isKvmap p = true → (k, v) ∈ pairs →
    payloadHas (pairs.foldl (fun vp q => payloadInsert vp q.1 q.2) p) k = true := by
  intro pairs
  induction pairs with
  | nil => intro p k v hk hmem; cases hmem
  | cons q rest ih =>
    intro p k v hk hmem
    simp only [List.foldl_cons]
    rcases List.mem_cons.mp hmem with heq | htail
    · rw [← heq]
      exact payloadHas_foldl_mono _ _ _ (payloadHas_payloadInsert_self _ _ _ hk)
    · exact ih _ _ _ (by rw [isKvmap_payloadInsert]; exact hk) htail

theorem interfaceToMap_not_kvmap (p : GoPayload) (h : isKvmap p = false) :
    interfaceToMapInterfaceInterface p = .error .coerceValues := by
  cases p <;> simp_all [isKvmap, interfaceToMapInterfaceInterface]

theorem interfaceToMap_kvmap (p : GoPayload) (h : isKvmap p = true) :
    ∃ m, p = .kvmap m ∧ interfaceToMapInterfaceInterface p = .ok m := by
  cases p <;> simp_all [isKvmap, interfaceToMapInterfaceInterface]

/-! ### Lemmas about the GetBatch chain walk -/

theorem batchWalk_cons_err (t : Tier) (rest : List Tier) (i : Nat)
    (todo : List GoVal) (vp : GoPayload) (hf : t.failGetBatch = true) :
    batchWalk (t :: rest) i todo vp =
      if rest.isEmpty then ⟨[], todo, vp, i, some i, [Event.tierGetBatchErr i todo]⟩
      else
        ⟨(i, todo) :: (batchWalk rest (i + 1) todo vp).refills,
          (batchWalk rest (i + 1) todo vp).todo,
          (batchWalk rest (i + 1) todo vp).values,
          (batchWalk rest (i + 1) todo vp).foundIn,
          (batchWalk rest (i + 1) todo vp).failed,
          Event.tierGetBatchErr i todo :: (batchWalk rest (i + 1) todo vp).trace⟩ := by
  simp [batchWalk, Tier.GetBatch, hf]

theorem batchWalk_cons_ok (t : Tier) (rest : List Tier) (i : Nat)
    (todo : List GoVal) (vp : GoPayload) (hf : t.failGetBatch = false) :
    batchWalk (t :: rest) i todo vp =
      if (tierMissing t todo).isEmpty then
        ⟨[(i, tierMissing t todo)], tierMissing t todo, tierFill t todo vp, i, none,
          [Event.tierGetBatch i todo (tierMissing t todo)]⟩
      else
        ⟨(i, tierMissing t todo) ::
            (batchWalk rest (i + 1) (tierMissing t todo) (tierFill t todo vp)).refills,
          (batchWalk rest (i + 1) (tierMissing t todo) (tierFill t todo vp)).todo,
          (batchWalk rest (i + 1) (tierMissing t todo) (tierFill t todo vp)).values,
          (batchWalk rest (i + 1) (tierMissing t todo) (tierFill t todo vp)).foundIn,
          (batchWalk rest (i + 1) (tierMissing t todo) (tierFill t todo vp)).failed,
          Event.tierGetBatch i todo (tierMissing t todo) ::
            (batchWalk rest (i + 1) (tierMissing t todo) (tierFill t todo vp)).trace⟩ := by
  simp [batchWalk, Tier.GetBatch, hf]

theorem mem_tierMissing (t : Tier) (todo : List GoVal) (x : GoVal)
    (hx : x ∈ tierMissing t todo) : x ∈ todo :=
  (List.mem_filter.mp hx).1

theorem batchWalk_todo_sub : ∀ (ts : List Tier) (i : Nat) (todo : List GoVal)
    (vp : GoPayload) (x : GoVal), x ∈ (batchWalk ts i todo vp).todo → x ∈ todo := by
  intro ts
  induction ts with
  | nil => intro i todo vp x hx; exact hx
  | cons t rest ih =>
    intro i todo vp x hx
    by_cases hf : t.failGetBatch = true
    · rw [batchWalk_cons_err t rest i todo vp hf] at hx
      by_cases hr : rest.isEmpty
      · simpa [hr] using hx
      · simp only [hr, if_false, Bool.false_eq_true] at hx
        exact ih _ _ _ _ hx
    · have hf' : t.failGetBatch = false := by simpa using hf
      rw [batchWalk_cons_ok t rest i todo vp hf'] at hx
      by_cases hm : (tierMissing t todo).isEmpty
      · simp only [hm, if_true] at hx
        exact mem_tierMissing _ _ _ hx
      · simp only [hm, if_false, Bool.false_eq_true] at hx
        exact mem_tierMissing _ _ _ (ih _ _ _ _ hx)

theorem isKvmap_tierFill (t : Tier) (todo : List GoVal) (vp : GoPayload) :
    isKvmap (tierFill t todo vp) = isKvmap vp :=
  isKvmap_foldl_payloadInsert _ _

theorem payloadHas_tierFill_mono (t : Tier) (todo : List GoVal) (vp : GoPayload)
    (k : GoVal) (h : payloadHas vp k = true) :
    payloadHas (tierFill t todo vp) k = true :=
  payloadHas_foldl_mono _ _ _ h

theorem payloadHas_tierFill_found (t : Tier) (todo : List GoVal) (vp : GoPayload)
    (k : GoVal) (hvp : isKvmap vp = true) (hk : k ∈ todo)
    (hfound : (assocFind t.store k).isSome = true) :
    payloadHas (tierFill t todo vp) k = true := by
  obtain ⟨v, hv⟩ := Option.isSome_iff_exists.mp hfound
  refine payloadHas_foldl_of_mem _ _ k v hvp ?_
  exact List.mem_filterMap.mpr ⟨k, hk, by simp [hv]⟩

theorem batchWalk_values_isKvmap : ∀ (ts : List Tier) (i : Nat) (todo : List GoVal)
    (vp : GoPayload), isKvmap (batchWalk ts i todo vp).values = isKvmap vp := by
  intro ts
  induction ts with
  | nil => intro i todo vp; rfl
  | cons t rest ih =>
    intro i todo vp
    by_cases hf : t.failGetBatch = true
    · rw [batchWalk_cons_err t rest i todo vp hf]
      by_cases hr : rest.isEmpty
      · simp [hr]
      · simp only [hr, if_false, Bool.false_eq_true]
        exact ih _ _ _
    · have hf' : t.failGetBatch = false := by simpa using hf
      rw [batchWalk_cons_ok t rest i todo vp hf']
      by_cases hm : (tierMissing t todo).isEmpty
      · simp [hm, isKvmap_tierFill]
      · simp only [hm, if_false, Bool.false_eq_true]
        rw [ih, isKvmap_tierFill]

theorem batchWalk_values_mono : ∀ (ts : List Tier) (i : Nat) (todo : List GoVal)
    (vp : GoPayload) (k : GoVal), payloadHas vp k = true →
    payloadHas (batchWalk ts i todo vp).values k = true := by
  intro ts
  induction ts with
  | nil => intro i todo vp k h; exact h
  | cons t rest ih =>
    intro i todo vp k h
    by_cases hf : t.failGetBatch = true
    · rw [batchWalk_cons_err t rest i todo vp hf]
      by_cases hr : rest.isEmpty
      · simpa [hr] using h
      · simp only [hr, if_false, Bool.false_eq_true]
        exact ih _ _ _ _ h
    · have hf' : t.failGetBatch = false := by simpa using hf
      rw [batchWalk_cons_ok t rest i todo vp hf']
      by_cases hm : (tierMissing t todo).isEmpty
      · simpa [hm] using payloadHas_tierFill_mono _ _ _ _ h
      · simp only [hm, if_false, Bool.false_eq_true]
        exact ih _ _ _ _ (payloadHas_tierFill_mono _ _ _ _ h)

theorem batchWalk_populates : ∀ (ts : List Tier) (i : Nat) (todo : List GoVal)
    (vp : GoPayload) (x : GoVal), isKvmap vp = true → x ∈ todo →
    x ∉ (batchWalk ts i todo vp).todo →
    payloadHas (batchWalk ts i todo vp).values x = true := by
  intro ts
  induction ts with
  | nil => intro i todo vp x _ hx hnx; exact absurd hx hnx
  | cons t rest ih =>
    intro i todo vp x hvp hx hnx
    by_cases hf : t.failGetBatch = true
    · rw [batchWalk_cons_err t rest i todo vp hf] at hnx ⊢
      by_cases hr : rest.isEmpty
      · simp only [hr, if_true] at hnx
        exact absurd hx hnx
      · simp only [hr, if_false, Bool.false_eq_true] at hnx ⊢
        exact ih _ _ _ _ hvp hx hnx
    · have hf' : t.failGetBatch = false := by simpa using hf
      rw [batchWalk_cons_ok t rest i todo vp hf'] at hnx ⊢
      by_cases hmem : x ∈ tierMissing t todo
      · by_cases hm : (tierMissing t todo).isEmpty
        · rw [List.isEmpty_iff] at hm
          rw [hm] at hmem
          cases hmem
        · simp only [hm, if_false, Bool.false_eq_true] at hnx ⊢
          exact ih _ _ _ _ (by rw [isKvmap_tierFill]; exact hvp) hmem hnx
      · have hfound : (assocFind t.store x).isSome = true := by
          by_contra hs
          have hnone : (assocFind t.store x).isNone = true := by
            cases hcase : assocFind t.store x with
            | none => rfl
            | some v => rw [hcase] at hs; exact absurd rfl hs
          exact hmem (List.mem_filter.mpr ⟨hx, hnone⟩)
        have hfill : payloadHas (tierFill t todo vp) x = true :=
          payloadHas_tierFill_found t todo vp x hvp hx hfound
        by_cases hm : (tierMissing t todo).isEmpty
        · simpa [hm] using hfill
        · simp only [hm, if_false, Bool.false_eq_true] at hnx ⊢
          exact batchWalk_values_mono _ _ _ _ _ hfill

theorem batchWalk_trace_reads : ∀ (ts : List Tier) (i : Nat) (todo : List GoVal)
    (vp : GoPayload) (e : Event), e ∈ (batchWalk ts i todo vp).trace →
    e.isWriteEvent = false := by
  intro ts
  induction ts with
  | nil => intro i todo vp e he; cases he
  | cons t rest ih =>
    intro i todo vp e he
    by_cases hf : t.failGetBatch = true
    · rw [batchWalk_cons_err t rest i todo vp hf] at he
      by_cases hr : rest.isEmpty
      · simp only [hr, if_true] at he
        simp only [List.mem_singleton] at he
        rw [he]; rfl
      · simp only [hr, if_false, Bool.false_eq_true] at he
        rcases List.mem_cons.mp he with h1 | h2
        · rw [h1]; rfl
        · exact ih _ _ _ _ h2
    · have hf' : t.failGetBatch = false := by simpa using hf
      rw [batchWalk_cons_ok t rest i todo vp hf'] at he
      by_cases hm : (tierMissing t todo).isEmpty
      · simp only [hm, if_true] at he
        simp only [List.mem_singleton] at he
        rw [he]; rfl
      · simp only [hm, if_false, Bool.false_eq_true] at he
        rcases List.mem_cons.mp he with h1 | h2
        · rw [h1]; rfl
        · exact ih _ _ _ _ h2

theorem batchWalk_failed_some : ∀ (ts : List Tier) (i : Nat) (todo : List GoVal)
    (vp : GoPayload) (j : Nat), (batchWalk ts i todo vp).failed = some j →
    ∃ pre t, ts = pre ++ [t] ∧ t.failGetBatch = true := by
  intro ts
  induction ts with
  | nil => intro i todo vp j h; cases h
  | cons t rest ih =>
    intro i todo vp j h
    by_cases hf : t.failGetBatch = true
    · rw [batchWalk_cons_err t rest i todo vp hf] at h
      by_cases hr : rest.isEmpty
      · rw [List.isEmpty_iff] at hr
        exact ⟨[], t, by rw [hr]; rfl, hf⟩
      · simp only [hr, if_false, Bool.false_eq_true] at h
        obtain ⟨pre, u, hrest, hu⟩ := ih _ _ _ _ h
        exact ⟨t :: pre, u, by rw [hrest]; rfl, hu⟩
    · have hf' : t.failGetBatch = false := by simpa using hf
      rw [batchWalk_cons_ok t rest i todo vp hf'] at h
      by_cases hm : (tierMissing t todo).isEmpty
      · simp [hm] at h
      · simp only [hm, if_false, Bool.false_eq_true] at h
        obtain ⟨pre, u, hrest, hu⟩ := ih _ _ _ _ h
        exact ⟨t :: pre, u, by rw [hrest]; rfl, hu⟩

/-! ### Lemmas about the write loops -/

theorem putLoop_cons_ok (t : Tier) (rest : List Tier) (k v : GoVal) (i : Nat)
    (hf : t.failPut = false) :
    putLoop k v (t :: rest) i =
      ((putLoop k v rest (i + 1)).1,
        { t with store := assocPut t.store k v } :: (putLoop k v rest (i + 1)).2.1,
        Event.tierPut i k :: (putLoop k v rest (i + 1)).2.2) := by
  simp [putLoop, Tier.Put, hf]

theorem putLoop_cons_err (t : Tier) (rest : List Tier) (k v : GoVal) (i : Nat)
    (hf : t.failPut = true) :
    putLoop k v (t :: rest) i =
      if rest.isEmpty then (some i, t :: rest, [Event.tierPut i k])
      else ((putLoop k v rest (i + 1)).1, t :: (putLoop k v rest (i + 1)).2.1,
        Event.tierPut i k :: (putLoop k v rest (i + 1)).2.2) := by
  simp [putLoop, Tier.Put, hf]

theorem putLoop_events : ∀ (ts : List Tier) (k v : GoVal) (i : Nat) (e : Event),
    e ∈ (putLoop k v ts i).2.2 → ∃ j, e = Event.tierPut j k := by
  intro ts
  induction ts with
  | nil => intro k v i e he; cases he
  | cons t rest ih =>
    intro k v i e he
    by_cases hf : t.failPut = true
    · rw [putLoop_cons_err t rest k v i hf] at he
      by_cases hr : rest.isEmpty
      · simp only [hr, if_true, List.mem_singleton] at he
        exact ⟨i, he⟩
      · simp only [hr, if_false, Bool.false_eq_true] at he
        rcases List.mem_cons.mp he with h1 | h2
        · exact ⟨i, h1⟩
        · exact ih _ _ _ _ h2
    · have hf' : t.failPut = false := by simpa using hf
      rw [putLoop_cons_ok t rest k v i hf'] at he
      rcases List.mem_cons.mp he with h1 | h2
      · exact ⟨i, h1⟩
      · exact ih _ _ _ _ h2

theorem putLoop_some : ∀ (ts : List Tier) (k v : GoVal) (i j : Nat),
    (putLoop k v ts i).1 = some j →
    ∃ pre t, ts = pre ++ [t] ∧ t.failPut = true := by
  intro ts
  induction ts with
  | nil => intro k v i j h; cases h
  | cons t rest ih =>
    intro k v i j h
    by_cases hf : t.failPut = true
    · rw [putLoop_cons_err t rest k v i hf] at h
      by_cases hr : rest.isEmpty
      · rw [List.isEmpty_iff] at hr
        exact ⟨[], t, by rw [hr]; rfl, hf⟩
      · simp only [hr, if_false, Bool.false_eq_true] at h
        obtain ⟨pre, u, hrest, hu⟩ := ih _ _ _ _ h
        exact ⟨t :: pre, u, by rw [hrest]; rfl, hu⟩
    · have hf' : t.failPut = false := by simpa using hf
      rw [putLoop_cons_ok t rest k v i hf'] at h
      obtain ⟨pre, u, hrest, hu⟩ := ih _ _ _ _ h
      exact ⟨t :: pre, u, by rw [hrest]; rfl, hu⟩

theorem putBatchPayload_err (t : Tier) (p : GoPayload) (hf : t.failPutBatch = true) :
    t.PutBatchPayload p = .error "tier error" := by
  cases p <;> simp [Tier.PutBatchPayload, Tier.PutBatchPairs, hf]

theorem putBatchPayload_ok (t : Tier) (p : GoPayload) (hf : t.failPutBatch = false) :
    ∃ t', t.PutBatchPayload p = .ok t' := by
  cases p <;> simp [Tier.PutBatchPayload, Tier.PutBatchPairs, hf]

theorem putBatchLoop_all_ok : ∀ (ts : List Tier) (p : GoPayload) (i : Nat),
    (∀ t ∈ ts, t.failPutBatch = false) →
    (putBatchLoop p ts i).1 = none ∧
      ∀ j, j < ts.length → Event.tierPutBatch (i + j) (payloadKeys p) ∈ (putBatchLoop p ts i).2.2 := by
  intro ts
  induction ts with
  | nil => intro p i _; exact ⟨rfl, by intro j hj; cases hj⟩
  | cons t rest ih =>
    intro p i hok
    have hf : t.failPutBatch = false := hok t (List.mem_cons_self t rest)
    obtain ⟨t', ht'⟩ := putBatchPayload_ok t p hf
    obtain ⟨ihn, ihe⟩ := ih p (i + 1) (fun u hu => hok u (List.mem_cons_of_mem _ hu))
    constructor
    · simp only [putBatchLoop, ht']
      exact ihn
    · intro j hj
      simp only [putBatchLoop, ht']
      cases j with
      | zero => simp
      | succ j' =>
        refine List.mem_cons_of_mem _ ?_
        have := ihe j' (by simpa [Nat.succ_lt_succ_iff] using hj)
        simpa [Nat.add_assoc, Nat.add_comm 1 j'] using this

theorem putBatchLoop_some : ∀ (ts : List Tier) (p : GoPayload) (i j : Nat),
    (putBatchLoop p ts i).1 = some j →
    ∃ pre t, ts = pre ++ [t] ∧ t.failPutBatch = true := by
  intro ts
  induction ts with
  | nil => intro p i j h; cases h
  | cons t rest ih =>
    intro p i j h
    by_cases hf : t.failPutBatch = true
    · rw [show putBatchLoop p (t :: rest) i =
          (if rest.isEmpty then (some i, t :: rest, [Event.tierPutBatch i (payloadKeys p)])
           else ((putBatchLoop p rest (i + 1)).1, t :: (putBatchLoop p rest (i + 1)).2.1,
             Event.tierPutBatch i (payloadKeys p) :: (putBatchLoop p rest (i + 1)).2.2))
          from by simp [putBatchLoop, putBatchPayload_err t p hf]] at h
      by_cases hr : rest.isEmpty
      · rw [List.isEmpty_iff] at hr
        exact ⟨[], t, by rw [hr]; rfl, hf⟩
      · simp only [hr, if_false, Bool.false_eq_true] at h
        obtain ⟨pre, u, hrest, hu⟩ := ih _ _ _ h
        exact ⟨t :: pre, u, by rw [hrest]; rfl, hu⟩
    · have hf' : t.failPutBatch = false := by simpa using hf
      obtain ⟨t', ht'⟩ := putBatchPayload_ok t p hf'
      simp only [putBatchLoop, ht'] at h
      obtain ⟨pre, u, hrest, hu⟩ := ih _ _ _ h
      exact ⟨t :: pre, u, by rw [hrest]; rfl, hu⟩

/-! ### Lemmas about the Contains and Get walks -/

theorem containsWalk_failed : ∀ (ts : List Tier) (k : GoVal) (i j : Nat),
    (containsWalk k ts i).1 = .failed j →
    ∃ pre t, ts = pre ++ [t] ∧ t.failContains = true := by
  intro ts
  induction ts with
  | nil => intro k i j h; cases h
  | cons t rest ih =>
    intro k i j h
    by_cases hf : t.failContains = true
    · simp only [containsWalk, Tier.Contains, hf, if_true] at h
      by_cases hr : rest.isEmpty
      · rw [List.isEmpty_iff] at hr
        exact ⟨[], t, by rw [hr]; rfl, hf⟩
      · simp only [hr, if_false, Bool.false_eq_true] at h
        obtain ⟨pre, u, hrest, hu⟩ := ih _ _ _ h
        exact ⟨t :: pre, u, by rw [hrest]; rfl, hu⟩
    · have hf' : t.failContains = false := by simpa using hf
      by_cases hb : (assocFind t.store k).isSome = true
      · simp only [containsWalk, Tier.Contains, hf', hb, if_false, Bool.false_eq_true] at h
        cases h
      · have hb' : (assocFind t.store k).isSome = false := by simpa using hb
        simp only [containsWalk, Tier.Contains, hf', hb', if_false, Bool.false_eq_true] at h
        obtain ⟨pre, u, hrest, hu⟩ := ih _ _ _ h
        exact ⟨t :: pre, u, by rw [hrest]; rfl, hu⟩

theorem getWalk_failed : ∀ (ts : List Tier) (k : GoVal) (i j : Nat),
    (getWalk k ts i).1 = .failed j →
    ∃ pre t, ts = pre ++ [t] ∧ t.failGet = true := by
  intro ts
  induction ts with
  | nil => intro k i j h; cases h
  | cons t rest ih =>
    intro k i j h
    by_cases hf : t.failGet = true
    · simp only [getWalk, Tier.Get, hf, if_true] at h
      by_cases hr : rest.isEmpty
      · rw [List.isEmpty_iff] at hr
        exact ⟨[], t, by rw [hr]; rfl, hf⟩
      · simp only [hr, if_false, Bool.false_eq_true] at h
        obtain ⟨pre, u, hrest, hu⟩ := ih _ _ _ h
        exact ⟨t :: pre, u, by rw [hrest]; rfl, hu⟩
    · have hf' : t.failGet = false := by simpa using hf
      cases hcase : assocFind t.store k with
      | some v =>
        simp only [getWalk, Tier.Get, hf', hcase, if_false, Bool.false_eq_true] at h
        cases h
      | none =>
        simp only [getWalk, Tier.Get, hf', hcase, if_false, Bool.false_eq_true] at h
        obtain ⟨pre, u, hrest, hu⟩ := ih _ _ _ h
        exact ⟨t :: pre, u, by rw [hrest]; rfl, hu⟩

/-! ### Lemmas about backfill and the refill bookkeeping -/

theorem refillLookup_mem (rs : List (Nat × List GoVal)) (n : Nat) (x : GoVal)
    (hx : x ∈ refillLookup rs n) : ∃ r, (n, r) ∈ rs ∧ x ∈ r := by
  unfold refillLookup at hx
  cases hfind : rs.find? (fun p => decide (p.1 = n)) with
  | none => rw [hfind] at hx; cases hx
  | some pr =>
    rw [hfind] at hx
    simp only [Option.map_some', Option.getD_some] at hx
    have hmem : pr ∈ rs := List.mem_of_find?_eq_some hfind
    have hp : pr.1 = n := by simpa using List.find?_some hfind
    refine ⟨pr.2, ?_, hx⟩
    rw [← hp]
    simpa using hmem

theorem batchBackfill_events : ∀ (n : Nat) (mii : List (GoVal × GoVal))
    (rs : List (Nat × List GoVal)) (chain : List Tier) (e : Event),
    e ∈ (batchBackfill mii rs chain n).2 →
    ∃ j, j < n ∧ e = Event.tierPutBatch j
      (((refillLookup rs j).filterMap
        (fun k => (assocFind mii k).map (fun v => (k, v)))).map (·.1)) := by
  intro n
  induction n with
  | zero => intro mii rs chain e he; cases he
  | succ n ih =>
    intro mii rs chain e he
    by_cases hr : (refillLookup rs n).isEmpty
    · simp only [batchBackfill, hr, if_true] at he
      obtain ⟨j, hj, hje⟩ := ih _ _ _ _ he
      exact ⟨j, Nat.lt_succ_of_lt hj, hje⟩
    · by_cases hp : ((refillLookup rs n).filterMap
          (fun k => (assocFind mii k).map (fun v => (k, v)))).isEmpty
      · simp only [batchBackfill, hr, hp, if_false, if_true, Bool.false_eq_true] at he
        obtain ⟨j, hj, hje⟩ := ih _ _ _ _ he
        exact ⟨j, Nat.lt_succ_of_lt hj, hje⟩
      · simp only [batchBackfill, hr, hp, if_false, Bool.false_eq_true] at he
        rcases List.mem_cons.mp he with h1 | h2
        · exact ⟨n, Nat.lt_succ_self n, h1⟩
        · obtain ⟨j, hj, hje⟩ := ih _ _ _ _ h2
          exact ⟨j, Nat.lt_succ_of_lt hj, hje⟩

theorem mem_backfill_pairs (mii : List (GoVal × GoVal)) (r : List GoVal) (x : GoVal)
    (hx : x ∈ (r.filterMap (fun k => (assocFind mii k).map (fun v => (k, v)))).map (·.1)) :
    x ∈ r ∧ (assocFind mii x).isSome = true := by
  obtain ⟨q, hq, hqx⟩ := List.mem_map.mp hx
  obtain ⟨a, ha, haq⟩ := List.mem_filterMap.mp hq
  cases hcase : assocFind mii a with
  | none => rw [hcase] at haq; cases haq
  | some v =>
    rw [hcase] at haq
    simp only [Option.map_some', Option.some_inj] at haq
    have hax : a = x := by rw [← haq] at hqx; simpa using hqx
    subst hax
    exact ⟨ha, by simp [hcase]⟩

theorem batchWalk_refills_sub : ∀ (ts : List Tier) (i : Nat) (todo : List GoVal)
    (vp : GoPayload) (j : Nat) (r : List GoVal),
    (j, r) ∈ (batchWalk ts i todo vp).refills → ∀ x ∈ r, x ∈ todo := by
  intro ts
  induction ts with
  | nil => intro i todo vp j r hjr; cases hjr
  | cons t rest ih =>
    intro i todo vp j r hjr x hx
    by_cases hf : t.failGetBatch = true
    · rw [batchWalk_cons_err t rest i todo vp hf] at hjr
      by_cases hre : rest.isEmpty
      · simp only [hre, if_true] at hjr; cases hjr
      · simp only [hre, if_false, Bool.false_eq_true, List.mem_cons] at hjr
        rcases hjr with h1 | h2
        · rw [(Prod.mk.injEq _ _ _ _).mp h1 |>.2] at hx; exact hx
        · exact ih _ _ _ _ _ h2 x hx
    · have hf' : t.failGetBatch = false := by simpa using hf
      rw [batchWalk_cons_ok t rest i todo vp hf'] at hjr
      by_cases hm : (tierMissing t todo).isEmpty
      · simp only [hm, if_true, List.mem_singleton] at hjr
        rw [(Prod.mk.injEq _ _ _ _).mp hjr |>.2] at hx
        exact mem_tierMissing _ _ _ hx
      · simp only [hm, if_false, Bool.false_eq_true, List.mem_cons] at hjr
        rcases hjr with h1 | h2
        · rw [(Prod.mk.injEq _ _ _ _).mp h1 |>.2] at hx
          exact mem_tierMissing _ _ _ hx
        · exact mem_tierMissing _ _ _ (ih _ _ _ _ _ h2 x hx)

theorem batchWalk_refills_tier : ∀ (ts : List Tier) (i : Nat) (todo : List GoVal)
    (vp : GoPayload) (j : Nat) (r : List GoVal),
    (j, r) ∈ (batchWalk ts i todo vp).refills →
    i ≤ j ∧ ∃ t, ts.get? (j - i) = some t ∧
      (t.failGetBatch = true ∨ ∀ x ∈ r, assocFind t.store x = none) := by
  intro ts
  induction ts with
  | nil => intro i todo vp j r hjr; cases hjr
  | cons t rest ih =>
    intro i todo vp j r hjr
    by_cases hf : t.failGetBatch = true
    · rw [batchWalk_cons_err t rest i todo vp hf] at hjr
      by_cases hre : rest.isEmpty
      · simp only [hre, if_true] at hjr; cases hjr
      · simp only [hre, if_false, Bool.false_eq_true, List.mem_cons] at hjr
        rcases hjr with h1 | h2
        · have hji : j = i := ((Prod.mk.injEq _ _ _ _).mp h1).1
          subst hji
          exact ⟨Nat.le_refl j, t, by simp, Or.inl hf⟩
        · obtain ⟨hij, u, hu, hprop⟩ := ih _ _ _ _ _ h2
          refine ⟨Nat.le_of_succ_le hij, u, ?_, hprop⟩
          have : j - i = (j - (i + 1)) + 1 := by omega
          rw [this, List.get?_cons_succ]
          exact hu
    · have hf' : t.failGetBatch = false := by simpa using hf
      rw [batchWalk_cons_ok t rest i todo vp hf'] at hjr
      have hhead : ∀ (hh : (j, r) = (i, tierMissing t todo)),
          i ≤ j ∧ ∃ u, (t :: rest).get? (j - i) = some u ∧
            (u.failGetBatch = true ∨ ∀ x ∈ r, assocFind u.store x = none) := by
        intro hh
        have hji : j = i := ((Prod.mk.injEq _ _ _ _).mp hh).1
        have hr : r = tierMissing t todo := ((Prod.mk.injEq _ _ _ _).mp hh).2
        subst hji
        refine ⟨Nat.le_refl j, t, by simp, Or.inr ?_⟩
        intro x hx
        rw [hr] at hx
        have := (List.mem_filter.mp hx).2
        simpa [Option.isNone_iff_eq_none] using this
      by_cases hm : (tierMissing t todo).isEmpty
      · simp only [hm, if_true, List.mem_singleton] at hjr
        exact hhead hjr
      · simp only [hm, if_false, Bool.false_eq_true, List.mem_cons] at hjr
        rcases hjr with h1 | h2
        · exact hhead h1
        · obtain ⟨hij, u, hu, hprop⟩ := ih _ _ _ _ _ h2
          refine ⟨Nat.le_of_succ_le hij, u, ?_, hprop⟩
          have : j - i = (j - (i + 1)) + 1 := by omega
          rw [this, List.get?_cons_succ]
          exact hu

theorem batchWalk_refills_mono : ∀ (ts : List Tier) (i : Nat) (todo : List GoVal)
    (vp : GoPayload) (j1 j2 : Nat) (r1 r2 : List GoVal),
    (j1, r1) ∈ (batchWalk ts i todo vp).refills →
    (j2, r2) ∈ (batchWalk ts i todo vp).refills → j1 ≤ j2 →
    ∀ x ∈ r2, x ∈ r1 := by
  intro ts
  induction ts with
  | nil => intro i todo vp j1 j2 r1 r2 h1 h2 hle x hx; cases h1
  | cons t rest ih =>
    intro i todo vp j1 j2 r1 r2 h1 h2 hle x hx
    by_cases hf : t.failGetBatch = true
    · rw [batchWalk_cons_err t rest i todo vp hf] at h1 h2
      by_cases hre : rest.isEmpty
      · simp only [hre, if_true] at h1; cases h1
      · simp only [hre, if_false, Bool.false_eq_true, List.mem_cons] at h1 h2
        rcases h1 with h1a | h1b
        · have hr1 : r1 = todo := ((Prod.mk.injEq _ _ _ _).mp h1a).2
          rcases h2 with h2a | h2b
          · have hr2 : r2 = todo := ((Prod.mk.injEq _ _ _ _).mp h2a).2
            rw [hr1, ← hr2]
            exact hx
          · rw [hr1]
            exact batchWalk_refills_sub _ _ _ _ _ _ h2b x hx
        · rcases h2 with h2a | h2b
          · have hj2 : j2 = i := ((Prod.mk.injEq _ _ _ _).mp h2a).1
            have hij1 := (batchWalk_refills_tier _ _ _ _ _ _ h1b).1
            omega
          · exact ih _ _ _ _ _ _ _ h1b h2b hle x hx
    · have hf' : t.failGetBatch = false := by simpa using hf
      rw [batchWalk_cons_ok t rest i todo vp hf'] at h1 h2
      by_cases hm : (tierMissing t todo).isEmpty
      · simp only [hm, if_true, List.mem_singleton] at h1 h2
        have hr1 : r1 = tierMissing t todo := ((Prod.mk.injEq _ _ _ _).mp h1).2
        have hr2 : r2 = tierMissing t todo := ((Prod.mk.injEq _ _ _ _).mp h2).2
        rw [hr1, ← hr2]
        exact hx
      · simp only [hm, if_false, Bool.false_eq_true, List.mem_cons] at h1 h2
        rcases h1 with h1a | h1b
        · have hr1 : r1 = tierMissing t todo := ((Prod.mk.injEq _ _ _ _).mp h1a).2
          rcases h2 with h2a | h2b
          · have hr2 : r2 = tierMissing t todo := ((Prod.mk.injEq _ _ _ _).mp h2a).2
            rw [hr1, ← hr2]
            exact hx
          · rw [hr1]
            exact batchWalk_refills_sub _ _ _ _ _ _ h2b x hx
        · rcases h2 with h2a | h2b
          · have hj2 : j2 = i := ((Prod.mk.injEq _ _ _ _).mp h2a).1
            have hij1 := (batchWalk_refills_tier _ _ _ _ _ _ h1b).1
            omega
          · exact ih _ _ _ _ _ _ _ h1b h2b hle x hx

/-! ### Where a populated value can come from -/

theorem payloadHas_payloadInsert_source (p : GoPayload) (k v x : GoVal)
    (h : payloadHas (payloadInsert p k v) x = true) :
    x = k ∨ payloadHas p x = true := by
  cases p with
  | kvmap m =>
    by_cases hk : x = k
    · exact Or.inl hk
    · right
      simpa [payloadInsert, payloadHas, assocFind_assocPut_ne m k v x hk] using h
  | slice l => exact Or.inr h
  | other => exact Or.inr h

theorem payloadHas_foldl_source : ∀ (pairs : List (GoVal × GoVal)) (p : GoPayload)
    (x : GoVal), payloadHas (pairs.foldl (fun vp q => payloadInsert vp q.1 q.2) p) x = true →
    payloadHas p x = true ∨ ∃ v, (x, v) ∈ pairs := by
  intro pairs
  induction pairs with
  | nil => intro p x h; exact Or.inl h
  | cons q rest ih =>
    intro p x h
    simp only [List.foldl_cons] at h
    rcases ih _ _ h with h1 | ⟨v, hv⟩
    · rcases payloadHas_payloadInsert_source p q.1 q.2 x h1 with heq | hp
      · right
        exact ⟨q.2, by rw [heq]; exact List.mem_cons_self q rest⟩
      · exact Or.inl hp
    · exact Or.inr ⟨v, List.mem_cons_of_mem _ hv⟩

theorem payloadHas_tierFill_source (t : Tier) (todo : List GoVal) (vp : GoPayload)
    (x : GoVal) (h : payloadHas (tierFill t todo vp) x = true) :
    payloadHas vp x = true ∨ (assocFind t.store x).isSome = true := by
  rcases payloadHas_foldl_source _ _ _ h with h1 | ⟨v, hv⟩
  · exact Or.inl h1
  · obtain ⟨a, ha, haq⟩ := List.mem_filterMap.mp hv
    cases hcase : assocFind t.store a with
    | none => rw [hcase] at haq; cases haq
    | some w =>
      rw [hcase] at haq
      simp only [Option.map_some', Option.some_inj] at haq
      have hax : a = x := by
        have := congrArg Prod.fst haq
        simpa using this
      subst hax
      exact Or.inr (by simp [hcase])

theorem batchWalk_values_source : ∀ (ts : List Tier) (i : Nat) (todo : List GoVal)
    (vp : GoPayload) (x : GoVal),
    payloadHas (batchWalk ts i todo vp).values x = true →
    payloadHas vp x = true ∨ ∃ j t, i ≤ j ∧ ts.get? (j - i) = some t ∧
      t.failGetBatch = false ∧ (assocFind t.store x).isSome = true := by
  intro ts
  induction ts with
  | nil => intro i todo vp x h; exact Or.inl h
  | cons t rest ih =>
    intro i todo vp x h
    by_cases hf : t.failGetBatch = true
    · rw [batchWalk_cons_err t rest i todo vp hf] at h
      by_cases hre : rest.isEmpty
      · simp only [hre, if_true] at h
        exact Or.inl h
      · simp only [hre, if_false, Bool.false_eq_true] at h
        rcases ih _ _ _ _ h with h1 | ⟨j, u, hij, hu, hprop⟩
        · exact Or.inl h1
        · refine Or.inr ⟨j, u, Nat.le_of_succ_le hij, ?_, hprop⟩
          have : j - i = (j - (i + 1)) + 1 := by omega
          rw [this, List.get?_cons_succ]
          exact hu
    · have hf' : t.failGetBatch = false := by simpa using hf
      rw [batchWalk_cons_ok t rest i todo vp hf'] at h
      have hfill : ∀ (hh : payloadHas (tierFill t todo vp) x = true),
          payloadHas vp x = true ∨ ∃ j u, i ≤ j ∧ (t :: rest).get? (j - i) = some u ∧
            u.failGetBatch = false ∧ (assocFind u.store x).isSome = true := by
        intro hh
        rcases payloadHas_tierFill_source t todo vp x hh with h1 | h2
        · exact Or.inl h1
        · exact Or.inr ⟨i, t, Nat.le_refl i, by simp, hf', h2⟩
      by_cases hm : (tierMissing t todo).isEmpty
      · simp only [hm, if_true] at h
        exact hfill h
      · simp only [hm, if_false, Bool.false_eq_true] at h
        rcases ih _ _ _ _ h with h1 | ⟨j, u, hij, hu, hprop⟩
        · exact hfill h1
        · refine Or.inr ⟨j, u, Nat.le_of_succ_le hij, ?_, hprop⟩
          have : j - i = (j - (i + 1)) + 1 := by omega
          rw [this, List.get?_cons_succ]
          exact hu

/-! ### Branch lemmas for the engine GetBatch -/

theorem getBatch_slice_early (s : ChainKvStore) (ks : List GoVal) (vp : GoPayload)
    (h : (cachePhase s ks).1.isEmpty = true) :
    s.GetBatch (.slice ks) vp =
      ⟨.ok (cachePhase s ks).2.1, s, vp, (cachePhase s ks).2.2⟩ := by
  simp [ChainKvStore.GetBatch, interfaceToInterfaceSlice, h]

theorem getBatch_slice_failed (s : ChainKvStore) (ks : List GoVal) (vp : GoPayload)
    (j : Nat) (h : (cachePhase s ks).1.isEmpty = false)
    (hf : (batchWalk s.chain 0 (cachePhase s ks).1 vp).failed = some j) :
    s.GetBatch (.slice ks) vp =
      ⟨.error (.tierFailed j), s, (batchWalk s.chain 0 (cachePhase s ks).1 vp).values,
        (cachePhase s ks).2.2 ++ (batchWalk s.chain 0 (cachePhase s ks).1 vp).trace⟩ := by
  simp [ChainKvStore.GetBatch, interfaceToInterfaceSlice, h, hf]

theorem getBatch_slice_badvalues (s : ChainKvStore) (ks : List GoVal) (vp : GoPayload)
    (h : (cachePhase s ks).1.isEmpty = false)
    (hf : (batchWalk s.chain 0 (cachePhase s ks).1 vp).failed = none)
    (hv : isKvmap (batchWalk s.chain 0 (cachePhase s ks).1 vp).values = false) :
    s.GetBatch (.slice ks) vp =
      ⟨.error .coerceValues, s, (batchWalk s.chain 0 (cachePhase s ks).1 vp).values,
        (cachePhase s ks).2.2 ++ (batchWalk s.chain 0 (cachePhase s ks).1 vp).trace⟩ := by
  simp [ChainKvStore.GetBatch, interfaceToInterfaceSlice, h, hf,
    interfaceToMap_not_kvmap _ hv]

theorem getBatch_slice_ok (s : ChainKvStore) (ks : List GoVal) (vp : GoPayload)
    (mii : List (GoVal × GoVal)) (h : (cachePhase s ks).1.isEmpty = false)
    (hf : (batchWalk s.chain 0 (cachePhase s ks).1 vp).failed = none)
    (hv : (batchWalk s.chain 0 (cachePhase s ks).1 vp).values = .kvmap mii) :
    s.GetBatch (.slice ks) vp =
      ⟨.ok ((batchWalk s.chain 0 (cachePhase s ks).1 vp).todo ++ (cachePhase s ks).2.1),
        ⟨(batchBackfill mii (batchWalk s.chain 0 (cachePhase s ks).1 vp).refills s.chain
            (batchWalk s.chain 0 (cachePhase s ks).1 vp).foundIn).1,
          s.missingCacheEnabled,
          (cacheWriteBack s (batchWalk s.chain 0 (cachePhase s ks).1 vp).todo).1⟩,
        (batchWalk s.chain 0 (cachePhase s ks).1 vp).values,
        (cachePhase s ks).2.2 ++ (batchWalk s.chain 0 (cachePhase s ks).1 vp).trace ++
          (batchBackfill mii (batchWalk s.chain 0 (cachePhase s ks).1 vp).refills s.chain
            (batchWalk s.chain 0 (cachePhase s ks).1 vp).foundIn).2 ++
          (cacheWriteBack s (batchWalk s.chain 0 (cachePhase s ks).1 vp).todo).2⟩ := by
  simp [ChainKvStore.GetBatch, interfaceToInterfaceSlice, h, hf, hv,
    interfaceToMapInterfaceInterface]

theorem getBatch_badkeys (s : ChainKvStore) (keys vp : GoPayload) (e : ChainError)
    (h : interfaceToInterfaceSlice keys = .error e) :
    s.GetBatch keys vp = ⟨.error e, s, vp, []⟩ := by
  simp [ChainKvStore.GetBatch, h]

/-! ### Claim C7: structure of the returned missing collection -/

theorem cachePhase_cached_nodup (s : ChainKvStore) (ks : List GoVal) :
    (cachePhase s ks).2.1.Nodup := by
  unfold cachePhase
  by_cases he : s.missingCacheEnabled
  · by_cases hf : s.missingCache.failGetBatch = true
    · simp [he, MissingCache.GetBatch, hf]
    · have hf' : s.missingCache.failGetBatch = false := by simpa using hf
      simp only [he, MissingCache.GetBatch, hf', if_false, if_true, Bool.false_eq_true]
      exact List.Nodup.map (fun a b hab => by injection hab) (List.nodup_dedup _)
  · simp [he]

/-- Claim C7 (corrected): a successful `GetBatch` returns exactly the final
`todo` concatenated with `cachedMissing` (the claimed union), and
`cachedMissing` itself is duplicate-free; however, the combined collection is
not duplicate-free for every input, because a duplicated missing caller key
survives the chain walk twice (see the counterexample). -/
theorem C7_missing_structure (s : ChainKvStore) (ks : List GoVal) (vp : GoPayload)
    (m : List GoVal) (h : (s.GetBatch (.slice ks) vp).result = .ok m) :
    (cachePhase s ks).2.1.Nodup ∧
      (((cachePhase s ks).1.isEmpty = true ∧ m = (cachePhase s ks).2.1) ∨
        ((cachePhase s ks).1.isEmpty = false ∧
          m = (batchWalk s.chain 0 (cachePhase s ks).1 vp).todo ++ (cachePhase s ks).2.1)) := by
  refine ⟨cachePhase_cached_nodup s ks, ?_⟩
  by_cases hemp : (cachePhase s ks).1.isEmpty
  · rw [getBatch_slice_early s ks vp hemp] at h
    simp only [Except.ok.injEq] at h
    exact Or.inl ⟨hemp, h.symm⟩
  · have hemp' : (cachePhase s ks).1.isEmpty = false := by simpa using hemp
    cases hfail : (batchWalk s.chain 0 (cachePhase s ks).1 vp).failed with
    | some j =>
      rw [getBatch_slice_failed s ks vp j hemp' hfail] at h
      cases h
    | none =>
      cases hkv : isKvmap (batchWalk s.chain 0 (cachePhase s ks).1 vp).values with
      | false =>
        rw [getBatch_slice_badvalues s ks vp hemp' hfail hkv] at h
        cases h
      | true =>
        obtain ⟨mii, hmi, _⟩ :=
          interfaceToMap_kvmap (batchWalk s.chain 0 (cachePhase s ks).1 vp).values hkv
        rw [getBatch_slice_ok s ks vp mii hemp' hfail hmi] at h
        simp only [Except.ok.injEq] at h
        exact Or.inr ⟨hemp', h.symm⟩

/-- Claim C7 witness: the structure theorem applied to a concrete run (one
tier holding key `"a"`, request `["a", "b"]`, which returns `["b"]`). -/
theorem C7_missing_structure_witness :
    (cachePhase
        ⟨[⟨[(GoVal.str "a", GoVal.int 1)], false, false, false, false, false⟩], false,
          ⟨[], false, false, false, false, false⟩⟩
        [GoVal.str "a", GoVal.str "b"]).2.1.Nodup ∧
      (((cachePhase
          ⟨[⟨[(GoVal.str "a", GoVal.int 1)], false, false, false, false, false⟩], false,
            ⟨[], false, false, false, false, false⟩⟩
          [GoVal.str "a", GoVal.str "b"]).1.isEmpty = true ∧
          [GoVal.str "b"] = (cachePhase
            ⟨[⟨[(GoVal.str "a", GoVal.int 1)], false, false, false, false, false⟩], false,
              ⟨[], false, false, false, false, false⟩⟩
            [GoVal.str "a", GoVal.str "b"]).2.1) ∨
        ((cachePhase
            ⟨[⟨[(GoVal.str "a", GoVal.int 1)], false, false, false, false, false⟩], false,
              ⟨[], false, false, false, false, false⟩⟩
            [GoVal.str "a", GoVal.str "b"]).1.isEmpty = false ∧
          [GoVal.str "b"] =
            (batchWalk
              [⟨[(GoVal.str "a", GoVal.int 1)], false, false, false, false, false⟩] 0
              (cachePhase
                ⟨[⟨[(GoVal.str "a", GoVal.int 1)], false, false, false, false, false⟩],
                  false, ⟨[], false, false, false, false, false⟩⟩
                [GoVal.str "a", GoVal.str "b"]).1 (.kvmap [])).todo ++
              (cachePhase
                ⟨[⟨[(GoVal.str "a", GoVal.int 1)], false, false, false, false, false⟩],
                  false, ⟨[], false, false, false, false, false⟩⟩
                [GoVal.str "a", GoVal.str "b"]).2.1)) :=
  C7_missing_structure _ _ (.kvmap []) [GoVal.str "b"] rfl

/-- Claim C7 counterexample: with an empty chain and the missing cache
disabled, a request carrying the duplicate key `"a"` twice returns the
missing collection `["a", "a"]`, which contains duplicate entries. -/
theorem C7_duplicates_counterexample :
    ((⟨[], false, ⟨[], false, false, false, false, false⟩⟩ : ChainKvStore).GetBatch
        (.slice [GoVal.str "a", GoVal.str "a"]) (.kvmap [])).result =
      .ok [GoVal.str "a", GoVal.str "a"] ∧
      ¬ ([GoVal.str "a", GoVal.str "a"] : List GoVal).Nodup := by
  constructor
  · rfl
  · decide

/-! ### Claim C10: empty chain -/

theorem mem_insertKey_self (l : List String) (s : String) : s ∈ insertKey l s := by
  unfold insertKey
  by_cases h : l.contains s = true
  · rw [if_pos h]
    exact List.mem_of_elem_eq_true h
  · rw [if_neg (by simpa using h)]
    exact List.mem_cons_self s l

theorem empty_contains_result (enabled : Bool) (mc : MissingCache) (k : GoVal) :
    ((⟨[], enabled, mc⟩ : ChainKvStore).Contains k).result = .ok false := by
  unfold ChainKvStore.Contains
  simp only [containsWalk]
  repeat' split
  all_goals rfl

theorem empty_contains_records (mc : MissingCache) (k : GoVal)
    (hput : mc.failPut = false) :
    goKeyString k ∈
      ((⟨[], true, mc⟩ : ChainKvStore).Contains k).state.missingCache.keys := by
  by_cases hfc : mc.failContains = true
  · simp only [ChainKvStore.Contains, containsWalk, MissingCache.Contains,
      MissingCache.Put, hfc, if_true, hput, if_false, Bool.false_eq_true]
    exact mem_insertKey_self _ _
  · have hfc' : mc.failContains = false := by simpa using hfc
    by_cases hb : mc.keys.contains (goKeyString k) = true
    · simp only [ChainKvStore.Contains, containsWalk, MissingCache.Contains, hfc',
        if_false, Bool.false_eq_true, hb, if_true]
      exact List.mem_of_elem_eq_true hb
    · have hb' : mc.keys.contains (goKeyString k) = false := by simpa using hb
      simp only [ChainKvStore.Contains, containsWalk, MissingCache.Contains,
        MissingCache.Put, hfc', hb', if_false, Bool.false_eq_true, hput, if_true]
      exact mem_insertKey_self _ _

theorem empty_get_result (enabled : Bool) (mc : MissingCache) (k : GoVal) :
    ((⟨[], enabled, mc⟩ : ChainKvStore).Get k).result = .ok none := by
  unfold ChainKvStore.Get
  simp only [getWalk]
  repeat' split
  all_goals rfl

theorem empty_put_result (enabled : Bool) (mc : MissingCache) (k v : GoVal) :
    ((⟨[], enabled, mc⟩ : ChainKvStore).Put k v).result = .ok () ∧
      ((⟨[], enabled, mc⟩ : ChainKvStore).Put k v).trace =
        (if enabled then [Event.cacheDelete k] else []) := by
  cases enabled with
  | false => simp [ChainKvStore.Put, putLoop]
  | true =>
    by_cases hfd : mc.failDelete = true
    · simp [ChainKvStore.Put, putLoop, MissingCache.Delete, hfd]
    · have hfd' : mc.failDelete = false := by simpa using hfd
      simp [ChainKvStore.Put, putLoop, MissingCache.Delete, hfd']

theorem empty_put_removes (mc : MissingCache) (k v : GoVal)
    (hdel : mc.failDelete = false) (hnd : mc.keys.Nodup) :
    goKeyString k ∉
      ((⟨[], true, mc⟩ : ChainKvStore).Put k v).state.missingCache.keys := by
  simp only [ChainKvStore.Put, putLoop, MissingCache.Delete, hdel, if_true, if_false,
    Bool.false_eq_true]
  intro hmem
  exact absurd ((hnd.mem_erase_iff).mp hmem).1 (by simp)

theorem deleteAll_events : ∀ (ks : List GoVal) (mc : MissingCache) (e : Event),
    e ∈ (deleteAll mc ks).2 → ∃ k, e = Event.cacheDelete k := by
  intro ks
  induction ks with
  | nil => intro mc e he; cases he
  | cons k rest ih =>
    intro mc e he
    simp only [deleteAll] at he
    rcases List.mem_cons.mp he with h1 | h2
    · exact ⟨k, h1⟩
    · exact ih _ _ h2

theorem empty_putBatch_result (enabled : Bool) (mc : MissingCache)
    (vm : List (GoVal × GoVal)) :
    ((⟨[], enabled, mc⟩ : ChainKvStore).PutBatch (.kvmap vm)).result = .ok () ∧
      ∀ e ∈ ((⟨[], enabled, mc⟩ : ChainKvStore).PutBatch (.kvmap vm)).trace,
        e.isTierEvent = false := by
  cases enabled with
  | false => simp [ChainKvStore.PutBatch, putBatchLoop]
  | true =>
    constructor
    · simp [ChainKvStore.PutBatch, putBatchLoop, interfaceToMapInterfaceInterface]
    · intro e he
      simp only [ChainKvStore.PutBatch, putBatchLoop,
        interfaceToMapInterfaceInterface, List.nil_append] at he
      obtain ⟨k, hk⟩ := deleteAll_events _ _ _ he
      rw [hk]; rfl

theorem empty_getBatch_result (enabled : Bool) (mc : MissingCache)
    (ks : List GoVal) (vm : List (GoVal × GoVal)) (hgb : mc.failGetBatch = false)
    (hmiss : ∀ x ∈ ks, goKeyString x ∉ mc.keys) :
    ((⟨[], enabled, mc⟩ : ChainKvStore).GetBatch (.slice ks) (.kvmap vm)).result =
      .ok ks := by
  have hcp1 : (cachePhase ⟨[], enabled, mc⟩ ks).1 = ks := by
    cases enabled with
    | false => simp [cachePhase]
    | true =>
      simp only [cachePhase, MissingCache.GetBatch, hgb, if_true, if_false,
        Bool.false_eq_true]
      apply List.filter_eq_self.mpr
      intro a ha
      simp [hmiss a ha]
  have hcp2 : (cachePhase ⟨[], enabled, mc⟩ ks).2.1 = [] := by
    cases enabled with
    | false => simp [cachePhase]
    | true =>
      simp only [cachePhase, MissingCache.GetBatch, hgb, if_true, if_false,
        Bool.false_eq_true]
      have hfil : ks.filter (fun x => mc.keys.contains (goKeyString x)) = [] := by
        apply List.filter_eq_nil_iff.mpr
        intro a ha
        simp [hmiss a ha]
      simp only [hfil]
      rfl
  by_cases hk : ks = []
  · subst hk
    have hemp : (cachePhase ⟨[], enabled, mc⟩ []).1.isEmpty = true := by
      rw [hcp1]; rfl
    rw [getBatch_slice_early _ _ (.kvmap vm) hemp]
    simp only
    rw [hcp2]
  · have hemp : (cachePhase ⟨[], enabled, mc⟩ ks).1.isEmpty = false := by
      rw [hcp1]
      cases hks : ks with
      | nil => exact absurd hks hk
      | cons a as => rfl
    have hfail : (batchWalk ([] : List Tier) 0 (cachePhase ⟨[], enabled, mc⟩ ks).1
        (.kvmap vm)).failed = none := by
      rw [hcp1]; rfl
    have hval : (batchWalk ([] : List Tier) 0 (cachePhase ⟨[], enabled, mc⟩ ks).1
        (.kvmap vm)).values = .kvmap vm := by
      rw [hcp1]; rfl
    rw [getBatch_slice_ok _ ks (.kvmap vm) vm hemp hfail hval]
    simp only
    rw [hcp1, hcp2]
    simp [batchWalk]

theorem empty_get_records (mc : MissingCache) (k : GoVal)
    (hput : mc.failPut = false) :
    goKeyString k ∈
      ((⟨[], true, mc⟩ : ChainKvStore).Get k).state.missingCache.keys := by
  by_cases hfc : mc.failContains = true
  · simp only [ChainKvStore.Get, getWalk, MissingCache.Contains,
      MissingCache.Put, hfc, if_true, hput, if_false, Bool.false_eq_true]
    exact mem_insertKey_self _ _
  · have hfc' : mc.failContains = false := by simpa using hfc
    by_cases hb : mc.keys.contains (goKeyString k) = true
    · simp only [ChainKvStore.Get, getWalk, MissingCache.Contains, hfc',
        if_false, Bool.false_eq_true, hb, if_true]
      exact List.mem_of_elem_eq_true hb
    · have hb' : mc.keys.contains (goKeyString k) = false := by simpa using hb
      simp only [ChainKvStore.Get, getWalk, MissingCache.Contains,
        MissingCache.Put, hfc', hb', if_false, Bool.false_eq_true, hput, if_true]
      exact mem_insertKey_self _ _

theorem deleteAll_keys_subset : ∀ (ks : List GoVal) (mc : MissingCache)
    (s2 : String), s2 ∈ (deleteAll mc ks).1.keys → s2 ∈ mc.keys := by
  intro ks
  induction ks with
  | nil => intro mc s2 h; exact h
  | cons k rest ih =>
    intro mc s2 h
    simp only [deleteAll] at h
    by_cases hfd : mc.failDelete = true
    · rw [show mc.Delete k = .error "cache error" from by
        simp [MissingCache.Delete, hfd]] at h
      exact ih _ _ h
    · have hfd' : mc.failDelete = false := by simpa using hfd
      rw [show mc.Delete k =
          .ok { mc with keys := mc.keys.erase (goKeyString k) } from by
        simp [MissingCache.Delete, hfd']] at h
      exact List.mem_of_mem_erase (ih _ _ h)

theorem deleteAll_removes : ∀ (ks : List GoVal) (mc : MissingCache) (k : GoVal),
    mc.failDelete = false → mc.keys.Nodup → k ∈ ks →
    goKeyString k ∉ (deleteAll mc ks).1.keys := by
  intro ks
  induction ks with
  | nil => intro mc k _ _ hk; cases hk
  | cons k' rest ih =>
    intro mc k hfd hnd hk
    have hdelk : mc.Delete k' =
        .ok { mc with keys := mc.keys.erase (goKeyString k') } := by
      simp [MissingCache.Delete, hfd]
    simp only [deleteAll, hdelk]
    rcases List.mem_cons.mp hk with heq | htail
    · subst heq
      intro hmem
      have hsub := deleteAll_keys_subset rest _ _ hmem
      exact absurd ((hnd.mem_erase_iff).mp hsub).1 (by simp)
    · exact ih _ k hfd (hnd.erase _) htail

theorem deleteAll_events_mem : ∀ (ks : List GoVal) (mc : MissingCache) (k : GoVal),
    k ∈ ks → Event.cacheDelete k ∈ (deleteAll mc ks).2 := by
  intro ks
  induction ks with
  | nil => intro mc k hk; cases hk
  | cons k' rest ih =>
    intro mc k hk
    simp only [deleteAll]
    rcases List.mem_cons.mp hk with heq | htail
    · rw [heq]
      exact List.mem_cons_self _ _
    · exact List.mem_cons_of_mem _ (ih _ _ htail)

theorem empty_putBatch_invalidate (mc : MissingCache) (vm : List (GoVal × GoVal))
    (x : GoVal) (hx : x ∈ vm.map (·.1)) (hdel : mc.failDelete = false)
    (hnd : mc.keys.Nodup) :
    Event.cacheDelete x ∈
        ((⟨[], true, mc⟩ : ChainKvStore).PutBatch (.kvmap vm)).trace ∧
      goKeyString x ∉
        ((⟨[], true, mc⟩ : ChainKvStore).PutBatch
          (.kvmap vm)).state.missingCache.keys := by
  constructor
  · simp only [ChainKvStore.PutBatch, putBatchLoop,
      interfaceToMapInterfaceInterface, List.nil_append]
    exact deleteAll_events_mem _ _ _ hx
  · simp only [ChainKvStore.PutBatch, putBatchLoop,
      interfaceToMapInterfaceInterface]
    exact deleteAll_removes _ _ _ hdel hnd hx

theorem empty_getBatch_noerror (enabled : Bool) (mc : MissingCache)
    (ks : List GoVal) (vm : List (GoVal × GoVal)) :
    ∃ m, ((⟨[], enabled, mc⟩ : ChainKvStore).GetBatch (.slice ks)
      (.kvmap vm)).result = .ok m := by
  by_cases hemp : (cachePhase ⟨[], enabled, mc⟩ ks).1.isEmpty = true
  · exact ⟨_, by rw [getBatch_slice_early _ _ (.kvmap vm) hemp]⟩
  · have hemp' : (cachePhase ⟨[], enabled, mc⟩ ks).1.isEmpty = false := by
      simpa using hemp
    have hfail : (batchWalk ([] : List Tier) 0
        (cachePhase ⟨[], enabled, mc⟩ ks).1 (.kvmap vm)).failed = none := rfl
    have hval : (batchWalk ([] : List Tier) 0
        (cachePhase ⟨[], enabled, mc⟩ ks).1 (.kvmap vm)).values = .kvmap vm := rfl
    exact ⟨_, by rw [getBatch_slice_ok _ ks (.kvmap vm) vm hemp' hfail hval]⟩

/-- Claim C10 (amended): with an empty chain every operation succeeds
vacuously and no chain-length requirement is enforced: `Contains` and `Get`
return the "absent" result with no error and, when the missing cache is
enabled and its write succeeds, record the key as missing; `Put` and
`PutBatch` return no error without touching any tier and still invalidate the
negative cache (each written key is erased when the delete succeeds);
`GetBatch` always returns with no error, and returns exactly the requested
keys as missing provided the negative-cache batch read succeeds and no
requested key is already recorded missing.  The original claim's
unconditional "returns all requested keys as missing" fails when a requested
key is already in the negative cache (see the counterexample): the cached
keys come back in stringified, deduplicated form. -/
theorem C10_empty_chain (enabled : Bool) (mc : MissingCache) (k v : GoVal)
    (ks : List GoVal) (vm : List (GoVal × GoVal))
    (hput : mc.failPut = false) (hdel : mc.failDelete = false)
    (hgb : mc.failGetBatch = false) (hnd : mc.keys.Nodup)
    (hmiss : ∀ x ∈ ks, goKeyString x ∉ mc.keys) :
    ((⟨[], enabled, mc⟩ : ChainKvStore).Contains k).result = .ok false ∧
      (enabled = true → goKeyString k ∈
        ((⟨[], true, mc⟩ : ChainKvStore).Contains k).state.missingCache.keys) ∧
      ((⟨[], enabled, mc⟩ : ChainKvStore).Get k).result = .ok none ∧
      (enabled = true → goKeyString k ∈
        ((⟨[], true, mc⟩ : ChainKvStore).Get k).state.missingCache.keys) ∧
      ((⟨[], enabled, mc⟩ : ChainKvStore).Put k v).result = .ok () ∧
      ((⟨[], enabled, mc⟩ : ChainKvStore).Put k v).trace =
        (if enabled then [Event.cacheDelete k] else []) ∧
      (enabled = true → goKeyString k ∉
        ((⟨[], true, mc⟩ : ChainKvStore).Put k v).state.missingCache.keys) ∧
      ((⟨[], enabled, mc⟩ : ChainKvStore).PutBatch (.kvmap vm)).result = .ok () ∧
      (∀ e ∈ ((⟨[], enabled, mc⟩ : ChainKvStore).PutBatch (.kvmap vm)).trace,
        e.isTierEvent = false) ∧
      (enabled = true → ∀ x ∈ vm.map (·.1),
        Event.cacheDelete x ∈
            ((⟨[], true, mc⟩ : ChainKvStore).PutBatch (.kvmap vm)).trace ∧
          goKeyString x ∉ ((⟨[], true, mc⟩ : ChainKvStore).PutBatch
            (.kvmap vm)).state.missingCache.keys) ∧
      (∃ m, ((⟨[], enabled, mc⟩ : ChainKvStore).GetBatch (.slice ks)
        (.kvmap vm)).result = .ok m) ∧
      ((⟨[], enabled, mc⟩ : ChainKvStore).GetBatch (.slice ks) (.kvmap vm)).result =
        .ok ks :=
  ⟨empty_contains_result enabled mc k,
    fun _ => empty_contains_records mc k hput,
    empty_get_result enabled mc k,
    fun _ => empty_get_records mc k hput,
    (empty_put_result enabled mc k v).1,
    (empty_put_result enabled mc k v).2,
    fun _ => empty_put_removes mc k v hdel hnd,
    (empty_putBatch_result enabled mc vm).1,
    (empty_putBatch_result enabled mc vm).2,
    fun _ x hx => empty_putBatch_invalidate mc vm x hx hdel hnd,
    empty_getBatch_noerror enabled mc ks vm,
    empty_getBatch_result enabled mc ks vm hgb hmiss⟩

/-- Claim C10 witness: the empty-chain theorem at a concrete state. -/
theorem C10_empty_chain_witness :
    ((⟨[], true, ⟨["z"], false, false, false, false, false⟩⟩ : ChainKvStore).Contains
        (GoVal.str "k")).result = .ok false ∧
      (true = true → goKeyString (GoVal.str "k") ∈
        ((⟨[], true, ⟨["z"], false, false, false, false, false⟩⟩ : ChainKvStore).Contains
          (GoVal.str "k")).state.missingCache.keys) ∧
      ((⟨[], true, ⟨["z"], false, false, false, false, false⟩⟩ : ChainKvStore).Get
        (GoVal.str "k")).result = .ok none ∧
      (true = true → goKeyString (GoVal.str "k") ∈
        ((⟨[], true, ⟨["z"], false, false, false, false, false⟩⟩ : ChainKvStore).Get
          (GoVal.str "k")).state.missingCache.keys) ∧
      ((⟨[], true, ⟨["z"], false, false, false, false, false⟩⟩ : ChainKvStore).Put
        (GoVal.str "k") (GoVal.int 5)).result = .ok () ∧
      ((⟨[], true, ⟨["z"], false, false, false, false, false⟩⟩ : ChainKvStore).Put
        (GoVal.str "k") (GoVal.int 5)).trace =
        (if true then [Event.cacheDelete (GoVal.str "k")] else []) ∧
      (true = true → goKeyString (GoVal.str "k") ∉
        ((⟨[], true, ⟨["z"], false, false, false, false, false⟩⟩ : ChainKvStore).Put
          (GoVal.str "k") (GoVal.int 5)).state.missingCache.keys) ∧
      ((⟨[], true, ⟨["z"], false, false, false, false, false⟩⟩ : ChainKvStore).PutBatch
        (.kvmap [(GoVal.str "a", GoVal.int 1)])).result = .ok () ∧
      (∀ e ∈ ((⟨[], true, ⟨["z"], false, false, false, false, false⟩⟩ :
          ChainKvStore).PutBatch (.kvmap [(GoVal.str "a", GoVal.int 1)])).trace,
        e.isTierEvent = false) ∧
      (true = true → ∀ x ∈ ([(GoVal.str "a", GoVal.int 1)] :
          List (GoVal × GoVal)).map (·.1),
        Event.cacheDelete x ∈
            ((⟨[], true, ⟨["z"], false, false, false, false, false⟩⟩ :
              ChainKvStore).PutBatch (.kvmap [(GoVal.str "a", GoVal.int 1)])).trace ∧
          goKeyString x ∉
            ((⟨[], true, ⟨["z"], false, false, false, false, false⟩⟩ :
              ChainKvStore).PutBatch
              (.kvmap [(GoVal.str "a", GoVal.int 1)])).state.missingCache.keys) ∧
      (∃ m, ((⟨[], true, ⟨["z"], false, false, false, false, false⟩⟩ :
          ChainKvStore).GetBatch (.slice [GoVal.str "k"])
          (.kvmap [(GoVal.str "a", GoVal.int 1)])).result = .ok m) ∧
      ((⟨[], true, ⟨["z"], false, false, false, false, false⟩⟩ : ChainKvStore).GetBatch
        (.slice [GoVal.str "k"]) (.kvmap [(GoVal.str "a", GoVal.int 1)])).result =
        .ok [GoVal.str "k"] :=
  C10_empty_chain true ⟨["z"], false, false, false, false, false⟩ (GoVal.str "k")
    (GoVal.int 5) [GoVal.str "k"] [(GoVal.str "a", GoVal.int 1)] rfl rfl rfl
    (by decide) (by decide)

/-- Claim C10 counterexample: with an empty chain, the missing cache enabled
and already holding the stringified key `"5"`, `GetBatch([int 5])` returns
with no error but NOT all requested keys as missing: it returns
`[str "5"]` (the stringified cached form), not the requested `[int 5]`. -/
theorem C10_cached_key_counterexample :
    ((⟨[], true, ⟨["5"], false, false, false, false, false⟩⟩ :
        ChainKvStore).GetBatch (.slice [GoVal.int 5]) (.kvmap [])).result =
      .ok [GoVal.str "5"] ∧
      ¬ ((⟨[], true, ⟨["5"], false, false, false, false, false⟩⟩ :
        ChainKvStore).GetBatch (.slice [GoVal.int 5]) (.kvmap [])).result =
        .ok [GoVal.int 5] := by
  exact ⟨rfl, by decide⟩

/-! ### Claim C1: when coercion failures surface -/

theorem batchWalk_cons_has_tier_event (t : Tier) (rest : List Tier) (i : Nat)
    (todo : List GoVal) (vp : GoPayload) :
    ∃ ev ∈ (batchWalk (t :: rest) i todo vp).trace, ev.isTierEvent = true := by
  by_cases hf : t.failGetBatch = true
  · rw [batchWalk_cons_err t rest i todo vp hf]
    by_cases hr : rest.isEmpty
    · exact ⟨Event.tierGetBatchErr i todo, by simp [hr], rfl⟩
    · exact ⟨Event.tierGetBatchErr i todo, by simp [hr], rfl⟩
  · have hf' : t.failGetBatch = false := by simpa using hf
    rw [batchWalk_cons_ok t rest i todo vp hf']
    by_cases hm : (tierMissing t todo).isEmpty
    · exact ⟨Event.tierGetBatch i todo (tierMissing t todo), by simp [hm], rfl⟩
    · exact ⟨Event.tierGetBatch i todo (tierMissing t todo), by simp [hm], rfl⟩

/-- Claim C1 (amended): a keys-coercion failure in `GetBatch` is fatal and
surfaces before any tier or cache access (the trace is empty and the state
unchanged).  The values-coercion failures, however, surface late: in
`GetBatch` the values container is coerced only after the chain read walk, so
when it fails the error is returned with tier reads already performed; and in
`PutBatch` with the missing cache enabled the values map is coerced only
after the loop over all tiers, so when it fails the error is returned with
every tier write already attempted. -/
theorem C1_coercion_policy (s : ChainKvStore) (keys vp : GoPayload)
    (ks : List GoVal) (e : ChainError) (t : Tier) (rest : List Tier) :
    (interfaceToInterfaceSlice keys = .error e →
      s.GetBatch keys vp = ⟨.error e, s, vp, []⟩) ∧
    (s.missingCacheEnabled = true → isKvmap vp = false →
      (∀ u ∈ s.chain, u.failPutBatch = false) →
      (s.PutBatch vp).result = .error .coerceValues ∧
        ∀ j, j < s.chain.length →
          Event.tierPutBatch j (payloadKeys vp) ∈ (s.PutBatch vp).trace) ∧
    (s.chain = t :: rest → isKvmap vp = false →
      (cachePhase s ks).1.isEmpty = false →
      (∀ u ∈ s.chain, u.failGetBatch = false) →
      (s.GetBatch (.slice ks) vp).result = .error .coerceValues ∧
        ∃ ev ∈ (s.GetBatch (.slice ks) vp).trace, ev.isTierEvent = true) := by
  refine ⟨fun hk => getBatch_badkeys s keys vp e hk, ?_, ?_⟩
  · intro henb hv hall
    obtain ⟨hnone, hev⟩ := putBatchLoop_all_ok s.chain vp 0 hall
    constructor
    · simp only [ChainKvStore.PutBatch, hnone, henb, if_true,
        interfaceToMap_not_kvmap vp hv]
    · intro j hj
      simp only [ChainKvStore.PutBatch, hnone, henb, if_true,
        interfaceToMap_not_kvmap vp hv]
      simpa using hev j hj
  · intro hchain hv hemp hall
    have hfail : (batchWalk s.chain 0 (cachePhase s ks).1 vp).failed = none := by
      cases hf : (batchWalk s.chain 0 (cachePhase s ks).1 vp).failed with
      | none => rfl
      | some j =>
        obtain ⟨pre, u, hch, hu⟩ := batchWalk_failed_some _ _ _ _ _ hf
        have hmem : u ∈ s.chain := by
          rw [hch]
          exact List.mem_append.mpr (Or.inr (List.mem_singleton.mpr rfl))
        rw [hall u hmem] at hu
        cases hu
    have hwv : isKvmap (batchWalk s.chain 0 (cachePhase s ks).1 vp).values = false := by
      rw [batchWalk_values_isKvmap]
      exact hv
    have heq := getBatch_slice_badvalues s ks vp hemp hfail hwv
    constructor
    · rw [heq]
    · rw [heq]
      simp only
      rw [hchain]
      obtain ⟨ev, hmem, hev⟩ :=
        batchWalk_cons_has_tier_event t rest 0 (cachePhase s ks).1 vp
      rw [← hchain]
      exact ⟨ev, List.mem_append.mpr (Or.inr (by rw [hchain]; exact hmem)), hev⟩

/-- Claim C1 witness: the amended policy at a concrete store (one tier,
missing cache enabled, uncoercible payloads). -/
theorem C1_coercion_policy_witness :
    ((⟨[⟨[], false, false, false, false, false⟩], true,
        ⟨[], false, false, false, false, false⟩⟩ : ChainKvStore).GetBatch .other .other =
      ⟨.error .coerceKeys,
        ⟨[⟨[], false, false, false, false, false⟩], true,
          ⟨[], false, false, false, false, false⟩⟩, .other, []⟩) ∧
    (((⟨[⟨[], false, false, false, false, false⟩], true,
        ⟨[], false, false, false, false, false⟩⟩ : ChainKvStore).PutBatch .other).result =
        .error .coerceValues ∧
      ∀ j, j < (⟨[⟨[], false, false, false, false, false⟩], true,
          ⟨[], false, false, false, false, false⟩⟩ : ChainKvStore).chain.length →
        Event.tierPutBatch j (payloadKeys .other) ∈
          ((⟨[⟨[], false, false, false, false, false⟩], true,
            ⟨[], false, false, false, false, false⟩⟩ : ChainKvStore).PutBatch .other).trace) ∧
    (((⟨[⟨[], false, false, false, false, false⟩], true,
        ⟨[], false, false, false, false, false⟩⟩ : ChainKvStore).GetBatch
          (.slice [GoVal.str "k"]) .other).result = .error .coerceValues ∧
      ∃ ev ∈ ((⟨[⟨[], false, false, false, false, false⟩], true,
          ⟨[], false, false, false, false, false⟩⟩ : ChainKvStore).GetBatch
            (.slice [GoVal.str "k"]) .other).trace, ev.isTierEvent = true) :=
  ⟨(C1_coercion_policy _ .other .other [GoVal.str "k"] .coerceKeys
      ⟨[], false, false, false, false, false⟩ []).1 rfl,
    (C1_coercion_policy _ .other .other [GoVal.str "k"] .coerceKeys
      ⟨[], false, false, false, false, false⟩ []).2.1 rfl rfl (by decide),
    (C1_coercion_policy _ .other .other [GoVal.str "k"] .coerceKeys
      ⟨[], false, false, false, false, false⟩ []).2.2 rfl rfl (by decide) (by decide)⟩

/-- Claim C1 counterexample: with one tier (whose writes succeed) and the
missing cache enabled, `PutBatch` of an uncoercible values payload returns the
coercion error although the tier write has already been performed, refuting
"the operation returns the coercion error and no tier read or write has
occurred". -/
theorem C1_coercion_counterexample :
    ((⟨[⟨[], false, false, false, false, false⟩], true,
        ⟨[], false, false, false, false, false⟩⟩ : ChainKvStore).PutBatch .other).result =
      .error .coerceValues ∧
      Event.tierPutBatch 0 [] ∈
        ((⟨[⟨[], false, false, false, false, false⟩], true,
          ⟨[], false, false, false, false, false⟩⟩ : ChainKvStore).PutBatch .other).trace := by
  constructor
  · rfl
  · decide

/-! ### Claim C4: Put and negative-cache invalidation -/

/-- Claim C4 (amended): when the missing cache is enabled and `Put` returns
success, the trace is exactly the tier writes followed by the negative-cache
invalidation (all tier writes happen before the invalidation, never the
reverse); and provided the negative-cache delete itself succeeded (its
failure is tolerated and logged by the engine), the negative cache does not
contain the key afterwards. -/
theorem C4_put_invalidation (s : ChainKvStore) (k v : GoVal)
    (henb : s.missingCacheEnabled = true)
    (hok : (s.Put k v).result = .ok ()) :
    (s.missingCache.failDelete = false → s.missingCache.keys.Nodup →
      goKeyString k ∉ (s.Put k v).state.missingCache.keys) ∧
    ∃ evs, (s.Put k v).trace = evs ++ [Event.cacheDelete k] ∧
      ∀ e ∈ evs, ∃ j, e = Event.tierPut j k := by
  cases hloop : (putLoop k v s.chain 0).1 with
  | some i =>
    exfalso
    simp only [ChainKvStore.Put, hloop] at hok
    cases hok
  | none =>
    by_cases hfd : s.missingCache.failDelete = true
    · constructor
      · intro hfd' _
        rw [hfd] at hfd'
        cases hfd'
      · simp only [ChainKvStore.Put, hloop, henb, if_true, MissingCache.Delete, hfd]
        exact ⟨(putLoop k v s.chain 0).2.2, rfl, fun e he => putLoop_events _ _ _ _ _ he⟩
    · have hfd' : s.missingCache.failDelete = false := by simpa using hfd
      constructor
      · intro _ hnd
        simp only [ChainKvStore.Put, hloop, henb, if_true, MissingCache.Delete, hfd',
          if_false, Bool.false_eq_true]
        intro hmem
        exact absurd ((hnd.mem_erase_iff).mp hmem).1 (by simp)
      · simp only [ChainKvStore.Put, hloop, henb, if_true, MissingCache.Delete, hfd',
          if_false, Bool.false_eq_true]
        exact ⟨(putLoop k v s.chain 0).2.2, rfl, fun e he => putLoop_events _ _ _ _ _ he⟩

/-- Claim C4 witness: the invalidation theorem at a concrete store (one tier,
missing cache enabled and holding the key, all cache operations succeeding). -/
theorem C4_put_invalidation_witness :
    ((⟨[⟨[], false, false, false, false, false⟩], true,
        ⟨["k"], false, false, false, false, false⟩⟩ : ChainKvStore).missingCache.failDelete =
          false →
      (⟨[⟨[], false, false, false, false, false⟩], true,
        ⟨["k"], false, false, false, false, false⟩⟩ : ChainKvStore).missingCache.keys.Nodup →
      goKeyString (GoVal.str "k") ∉
        ((⟨[⟨[], false, false, false, false, false⟩], true,
          ⟨["k"], false, false, false, false, false⟩⟩ : ChainKvStore).Put
          (GoVal.str "k") (GoVal.int 5)).state.missingCache.keys) ∧
    ∃ evs, ((⟨[⟨[], false, false, false, false, false⟩], true,
        ⟨["k"], false, false, false, false, false⟩⟩ : ChainKvStore).Put
        (GoVal.str "k") (GoVal.int 5)).trace = evs ++ [Event.cacheDelete (GoVal.str "k")] ∧
      ∀ e ∈ evs, ∃ j, e = Event.tierPut j (GoVal.str "k") :=
  C4_put_invalidation _ (GoVal.str "k") (GoVal.int 5) rfl rfl

/-- Claim C4 counterexample: when the negative-cache delete fails (an error
the engine only logs), `Put` still returns success while the negative cache
keeps containing the key, refuting "in every execution in which Put returns
success the negative cache does not contain K". -/
theorem C4_stale_negative_counterexample :
    ((⟨[⟨[], false, false, false, false, false⟩], true,
        ⟨["k"], false, false, false, false, true⟩⟩ : ChainKvStore).Put
      (GoVal.str "k") (GoVal.int 5)).result = .ok () ∧
      goKeyString (GoVal.str "k") ∈
        ((⟨[⟨[], false, false, false, false, false⟩], true,
          ⟨["k"], false, false, false, false, true⟩⟩ : ChainKvStore).Put
          (GoVal.str "k") (GoVal.int 5)).state.missingCache.keys := by
  constructor
  · rfl
  · decide

/-! ### Claim C8: cache-reported missing keys come back stringified -/

theorem cachePhase_enabled_ok (s : ChainKvStore) (ks : List GoVal)
    (henb : s.missingCacheEnabled = true)
    (hgb : s.missingCache.failGetBatch = false) :
    cachePhase s ks =
      (ks.filter (fun x => !(s.missingCache.keys.contains (goKeyString x))),
        (((ks.filter (fun x => s.missingCache.keys.contains (goKeyString x))).map
          goKeyString).dedup).map GoVal.str,
        [Event.cacheGetBatch ks]) := by
  simp [cachePhase, MissingCache.GetBatch, henb, hgb]

theorem getBatch_ok_eq (s : ChainKvStore) (ks : List GoVal) (vp : GoPayload)
    (m : List GoVal) (hok : (s.GetBatch (.slice ks) vp).result = .ok m) :
    m = (if (cachePhase s ks).1.isEmpty then []
        else (batchWalk s.chain 0 (cachePhase s ks).1 vp).todo) ++
      (cachePhase s ks).2.1 := by
  by_cases hemp : (cachePhase s ks).1.isEmpty = true
  · rw [getBatch_slice_early s ks vp hemp] at hok
    simp only [Except.ok.injEq] at hok
    rw [if_pos hemp, ← hok]
    exact (List.nil_append _).symm
  · have hemp' : (cachePhase s ks).1.isEmpty = false := by simpa using hemp
    cases hfail : (batchWalk s.chain 0 (cachePhase s ks).1 vp).failed with
    | some j =>
      rw [getBatch_slice_failed s ks vp j hemp' hfail] at hok
      cases hok
    | none =>
      cases hkv : isKvmap (batchWalk s.chain 0 (cachePhase s ks).1 vp).values with
      | false =>
        rw [getBatch_slice_badvalues s ks vp hemp' hfail hkv] at hok
        cases hok
      | true =>
        obtain ⟨mii, hmi, _⟩ :=
          interfaceToMap_kvmap (batchWalk s.chain 0 (cachePhase s ks).1 vp).values hkv
        rw [getBatch_slice_ok s ks vp mii hemp' hfail hmi] at hok
        simp only [Except.ok.injEq] at hok
        rw [if_neg (by simp [hemp']), ← hok]

/-- Claim C8 (confirmed): when the missing cache is enabled and its batch read
succeeds, every key it reports missing is returned to the caller as the
string key of the internal string-keyed map used for the negative-cache
lookup, i.e. as `GoVal.str (goKeyString k)`; consequently a non-string caller
key (an integer key) that hits the negative cache is itself absent from the
returned missing collection, which differs from the key the caller passed. -/
theorem C8_cached_missing_stringified (s : ChainKvStore) (ks : List GoVal)
    (vp : GoPayload) (m : List GoVal) (k : GoVal)
    (henb : s.missingCacheEnabled = true)
    (hgb : s.missingCache.failGetBatch = false)
    (hok : (s.GetBatch (.slice ks) vp).result = .ok m)
    (hk : k ∈ ks)
    (hhit : s.missingCache.keys.contains (goKeyString k) = true) :
    GoVal.str (goKeyString k) ∈ m ∧ (∀ n : Int, k = .int n → k ∉ m) := by
  have hstruct := getBatch_ok_eq s ks vp m hok
  rw [cachePhase_enabled_ok s ks henb hgb] at hstruct
  simp only at hstruct
  constructor
  · rw [hstruct]
    refine List.mem_append.mpr (Or.inr ?_)
    refine List.mem_map.mpr ⟨goKeyString k, ?_, rfl⟩
    refine List.mem_dedup.mpr ?_
    exact List.mem_map.mpr ⟨k, List.mem_filter.mpr ⟨hk, hhit⟩, rfl⟩
  · intro n hkn hmem
    rw [hstruct] at hmem
    rcases List.mem_append.mp hmem with h1 | h2
    · by_cases hemp : (ks.filter
          (fun x => !(s.missingCache.keys.contains (goKeyString x)))).isEmpty = true
      · rw [if_pos hemp] at h1
        cases h1
      · rw [if_neg (by simpa using hemp)] at h1
        have hstill := batchWalk_todo_sub _ _ _ _ _ h1
        have hneg := (List.mem_filter.mp hstill).2
        rw [hhit] at hneg
        cases hneg
    · obtain ⟨a, _, ha⟩ := List.mem_map.mp h2
      rw [hkn] at ha
      exact GoVal.noConfusion ha

/-- Claim C8 witness: the stringification theorem at a concrete run where the
negative cache holds `"5"` and the caller asks for the integer keys 5 and 6:
the result is `[int 6, str "5"]`. -/
theorem C8_cached_missing_stringified_witness :
    GoVal.str (goKeyString (GoVal.int 5)) ∈ [GoVal.int 6, GoVal.str "5"] ∧
      (∀ n : Int, GoVal.int 5 = GoVal.int n →
        GoVal.int 5 ∉ [GoVal.int 6, GoVal.str "5"]) :=
  C8_cached_missing_stringified
    ⟨[⟨[], false, false, false, false, false⟩], true,
      ⟨["5"], false, false, false, false, false⟩⟩
    [GoVal.int 5, GoVal.int 6] (.kvmap []) [GoVal.int 6, GoVal.str "5"]
    (GoVal.int 5) rfl rfl rfl (by decide) (by decide)

/-! ### Claim C2: GetBatch missing-subset and population guarantee -/

theorem isKvmap_exists (p : GoPayload) (h : isKvmap p = true) :
    ∃ mm, p = .kvmap mm := by
  cases p <;> simp_all [isKvmap]

theorem cachePhase_disabled (s : ChainKvStore) (ks : List GoVal)
    (h : s.missingCacheEnabled = false) : cachePhase s ks = (ks, [], []) := by
  simp [cachePhase, h]

theorem getBatch_ok_values (s : ChainKvStore) (ks : List GoVal) (vp : GoPayload)
    (m : List GoVal) (hok : (s.GetBatch (.slice ks) vp).result = .ok m) :
    (s.GetBatch (.slice ks) vp).values =
      (if (cachePhase s ks).1.isEmpty then vp
        else (batchWalk s.chain 0 (cachePhase s ks).1 vp).values) := by
  by_cases hemp : (cachePhase s ks).1.isEmpty = true
  · rw [getBatch_slice_early s ks vp hemp, if_pos hemp]
  · have hemp' : (cachePhase s ks).1.isEmpty = false := by simpa using hemp
    cases hfail : (batchWalk s.chain 0 (cachePhase s ks).1 vp).failed with
    | some j =>
      rw [getBatch_slice_failed s ks vp j hemp' hfail] at hok
      cases hok
    | none =>
      cases hkv : isKvmap (batchWalk s.chain 0 (cachePhase s ks).1 vp).values with
      | false =>
        rw [getBatch_slice_badvalues s ks vp hemp' hfail hkv] at hok
        cases hok
      | true =>
        obtain ⟨mii, hmi, _⟩ :=
          interfaceToMap_kvmap (batchWalk s.chain 0 (cachePhase s ks).1 vp).values hkv
        rw [getBatch_slice_ok s ks vp mii hemp' hfail hmi, if_neg (by simp [hemp'])]

/-- Claim C2 (amended): for every `GetBatch(keys, values)` call on a keyed map
destination that returns without error, the returned missing collection `M`
satisfies `M ⊆ keys` and every requested key not in `M` has been populated in
the destination, PROVIDED the missing cache is disabled, or it is enabled
with a succeeding batch read and all caller keys are strings (so that the
stringified cache-hit entries coincide with the original keys).  Without that
proviso the property fails (see the counterexample). -/
theorem C2_getBatch_result (s : ChainKvStore) (ks : List GoVal)
    (vm : List (GoVal × GoVal)) (m : List GoVal)
    (hok : (s.GetBatch (.slice ks) (.kvmap vm)).result = .ok m)
    (hcase : s.missingCacheEnabled = false ∨
      (s.missingCacheEnabled = true ∧ s.missingCache.failGetBatch = false ∧
        ∀ x ∈ ks, ∃ a, x = GoVal.str a)) :
    (∀ x ∈ m, x ∈ ks) ∧
      ∀ x ∈ ks, x ∉ m →
        ∃ vm', (s.GetBatch (.slice ks) (.kvmap vm)).values = .kvmap vm' ∧
          (assocFind vm' x).isSome = true := by
  have hstruct := getBatch_ok_eq s ks (.kvmap vm) m hok
  have hvals := getBatch_ok_values s ks (.kvmap vm) m hok
  rcases hcase with hdis | ⟨henb, hgb, hstr⟩
  · rw [cachePhase_disabled s ks hdis] at hstruct hvals
    simp only at hstruct hvals
    rw [List.append_nil] at hstruct
    constructor
    · intro x hx
      rw [hstruct] at hx
      by_cases hemp : ks.isEmpty = true
      · rw [if_pos hemp] at hx
        cases hx
      · rw [if_neg (by simpa using hemp)] at hx
        exact batchWalk_todo_sub _ _ _ _ _ hx
    · intro x hxks hxm
      by_cases hemp : ks.isEmpty = true
      · rw [List.isEmpty_iff] at hemp
        rw [hemp] at hxks
        cases hxks
      · have hemp' : ks.isEmpty = false := by simpa using hemp
        rw [hstruct, if_neg (by simp [hemp'])] at hxm
        have hpop := batchWalk_populates s.chain 0 ks (.kvmap vm) x rfl hxks hxm
        have hkvw : isKvmap (batchWalk s.chain 0 ks (.kvmap vm)).values = true := by
          rw [batchWalk_values_isKvmap]
          rfl
        obtain ⟨vm', hvm'⟩ := isKvmap_exists _ hkvw
        refine ⟨vm', ?_, ?_⟩
        · rw [hvals, if_neg (by simp [hemp'])]
          exact hvm'
        · rw [hvm'] at hpop
          exact hpop
  · rw [cachePhase_enabled_ok s ks henb hgb] at hstruct hvals
    simp only at hstruct hvals
    have hcm : ∀ y ∈ (((ks.filter
        (fun x => s.missingCache.keys.contains (goKeyString x))).map
          goKeyString).dedup).map GoVal.str, y ∈ ks := by
      intro y hy
      obtain ⟨h, hh, hy'⟩ := List.mem_map.mp hy
      obtain ⟨a, haf, hag⟩ := List.mem_map.mp (List.mem_dedup.mp hh)
      obtain ⟨b, hb⟩ := hstr a (List.mem_filter.mp haf).1
      have hya : y = a := by
        rw [← hy', ← hag, hb]
        rfl
      rw [hya]
      exact (List.mem_filter.mp haf).1
    constructor
    · intro x hx
      rw [hstruct] at hx
      rcases List.mem_append.mp hx with h1 | h2
      · by_cases hemp : (ks.filter
            (fun x => !(s.missingCache.keys.contains (goKeyString x)))).isEmpty = true
        · rw [if_pos hemp] at h1
          cases h1
        · rw [if_neg (by simpa using hemp)] at h1
          exact (List.mem_filter.mp (batchWalk_todo_sub _ _ _ _ _ h1)).1
      · exact hcm x h2
    · intro x hxks hxm
      by_cases hhit : s.missingCache.keys.contains (goKeyString x) = true
      · exfalso
        apply hxm
        rw [hstruct]
        refine List.mem_append.mpr (Or.inr ?_)
        obtain ⟨b, hb⟩ := hstr x hxks
        have hxstr : GoVal.str (goKeyString x) = x := by
          rw [hb]
          rfl
        rw [← hxstr]
        refine List.mem_map.mpr ⟨goKeyString x, ?_, rfl⟩
        exact List.mem_dedup.mpr
          (List.mem_map.mpr ⟨x, List.mem_filter.mpr ⟨hxks, hhit⟩, rfl⟩)
      · have hhit' : s.missingCache.keys.contains (goKeyString x) = false := by
          simpa using hhit
        have hxstill : x ∈ ks.filter
            (fun y => !(s.missingCache.keys.contains (goKeyString y))) :=
          List.mem_filter.mpr ⟨hxks, by rw [hhit']; rfl⟩
        by_cases hemp : (ks.filter
            (fun y => !(s.missingCache.keys.contains (goKeyString y)))).isEmpty = true
        · rw [List.isEmpty_iff] at hemp
          rw [hemp] at hxstill
          cases hxstill
        · have hemp' : (ks.filter
              (fun y => !(s.missingCache.keys.contains (goKeyString y)))).isEmpty =
                false := by simpa using hemp
          have hxnt : x ∉ (batchWalk s.chain 0
              (ks.filter (fun y => !(s.missingCache.keys.contains (goKeyString y))))
              (.kvmap vm)).todo := by
            intro hc
            apply hxm
            rw [hstruct, if_neg (fun hcc => by rw [hemp'] at hcc; cases hcc)]
            exact List.mem_append.mpr (Or.inl hc)
          have hpop := batchWalk_populates s.chain 0 _ (.kvmap vm) x rfl hxstill hxnt
          have hkvw : isKvmap (batchWalk s.chain 0
              (ks.filter (fun y => !(s.missingCache.keys.contains (goKeyString y))))
              (.kvmap vm)).values = true := by
            rw [batchWalk_values_isKvmap]
            rfl
          obtain ⟨vm', hvm'⟩ := isKvmap_exists _ hkvw
          refine ⟨vm', ?_, ?_⟩
          · rw [hvals, if_neg (fun hcc => by rw [hemp'] at hcc; cases hcc)]
            exact hvm'
          · rw [hvm'] at hpop
            exact hpop

/-- Claim C2 witness: the amended theorem at a concrete run (one tier holding
`"a"`, missing cache disabled, request `["a", "b"]` returning `["b"]`). -/
theorem C2_getBatch_result_witness :
    (∀ x ∈ [GoVal.str "b"], x ∈ [GoVal.str "a", GoVal.str "b"]) ∧
      ∀ x ∈ [GoVal.str "a", GoVal.str "b"], x ∉ [GoVal.str "b"] →
        ∃ vm', ((⟨[⟨[(GoVal.str "a", GoVal.int 1)], false, false, false, false, false⟩],
            false, ⟨[], false, false, false, false, false⟩⟩ : ChainKvStore).GetBatch
            (.slice [GoVal.str "a", GoVal.str "b"]) (.kvmap [])).values = .kvmap vm' ∧
          (assocFind vm' x).isSome = true :=
  C2_getBatch_result
    ⟨[⟨[(GoVal.str "a", GoVal.int 1)], false, false, false, false, false⟩], false,
      ⟨[], false, false, false, false, false⟩⟩
    [GoVal.str "a", GoVal.str "b"] [] [GoVal.str "b"] rfl (Or.inl rfl)

/-- Claim C2 counterexample: with the missing cache enabled and holding the
stringified key `"5"`, `GetBatch([int 5], values)` returns without error the
missing collection `[str "5"]`, which is not a subset of the caller's keys
(and the not-missing key `int 5` is not populated either). -/
theorem C2_subset_counterexample :
    ((⟨[⟨[], false, false, false, false, false⟩], true,
        ⟨["5"], false, false, false, false, false⟩⟩ : ChainKvStore).GetBatch
      (.slice [GoVal.int 5]) (.kvmap [])).result = .ok [GoVal.str "5"] ∧
      GoVal.str "5" ∉ ([GoVal.int 5] : List GoVal) ∧
      ((⟨[⟨[], false, false, false, false, false⟩], true,
        ⟨["5"], false, false, false, false, false⟩⟩ : ChainKvStore).GetBatch
        (.slice [GoVal.int 5]) (.kvmap [])).values = .kvmap [] := by
  refine ⟨rfl, by decide, rfl⟩

/-! ### Claim C3: non-terminal tier failures are tolerated -/

theorem append_singleton_last {α : Type} (p q : List α) (a b : α)
    (h : p ++ [a] = q ++ [b]) : a = b := by
  have h2 := (List.append_inj' h rfl).2
  simpa using h2

/-- Claim C3 (confirmed): for every chain whose terminal tier's operations all
succeed, and arbitrary non-terminal tiers (hence any combination of
non-terminal errors), none of the five engine operations returns an error:
non-terminal failures are tolerated and each operation completes normally. -/
theorem C3_terminal_ok_no_error (s : ChainKvStore) (pre : List Tier) (t : Tier)
    (k v : GoVal) (ks : List GoVal) (vm vmw : List (GoVal × GoVal))
    (hchain : s.chain = pre ++ [t]) (hok : t.allOk) :
    (∃ b, (s.Contains k).result = .ok b) ∧
      (∃ r, (s.Get k).result = .ok r) ∧
      (∃ m, (s.GetBatch (.slice ks) (.kvmap vm)).result = .ok m) ∧
      (s.Put k v).result = .ok () ∧
      (s.PutBatch (.kvmap vmw)).result = .ok () := by
  obtain ⟨hC, hG, hGB, hP, hPB⟩ := hok
  refine ⟨?_, ?_, ?_, ?_, ?_⟩
  · have hwalk : ∀ j, (containsWalk k s.chain 0).1 ≠ .failed j := by
      intro j hf
      obtain ⟨pre', t', hch, ht'⟩ := containsWalk_failed s.chain k 0 j hf
      have hlast : t' = t := append_singleton_last pre' pre t' t (by rw [← hch, hchain])
      rw [hlast, hC] at ht'
      cases ht'
    have hcw : (containsWalk k s.chain 0).1 = .found ∨
        (containsWalk k s.chain 0).1 = .absent := by
      cases hx : (containsWalk k s.chain 0).1 with
      | failed j => exact absurd hx (hwalk j)
      | found => exact Or.inl rfl
      | absent => exact Or.inr rfl
    cases henb : s.missingCacheEnabled with
    | false =>
      rcases hcw with hcw | hcw
      · exact ⟨true, by simp [ChainKvStore.Contains, henb, hcw]⟩
      · exact ⟨false, by simp [ChainKvStore.Contains, henb, hcw]⟩
    | true =>
      cases hmc : s.missingCache.Contains k with
      | error e =>
        rcases hcw with hcw | hcw
        · exact ⟨true, by simp [ChainKvStore.Contains, henb, hmc, hcw]⟩
        · cases hput : s.missingCache.Put k with
          | ok mc' =>
            exact ⟨false, by simp [ChainKvStore.Contains, henb, hmc, hcw, hput]⟩
          | error e2 =>
            exact ⟨false, by simp [ChainKvStore.Contains, henb, hmc, hcw, hput]⟩
      | ok b =>
        cases b with
        | true => exact ⟨false, by simp [ChainKvStore.Contains, henb, hmc]⟩
        | false =>
          rcases hcw with hcw | hcw
          · exact ⟨true, by simp [ChainKvStore.Contains, henb, hmc, hcw]⟩
          · cases hput : s.missingCache.Put k with
            | ok mc' =>
              exact ⟨false, by simp [ChainKvStore.Contains, henb, hmc, hcw, hput]⟩
            | error e2 =>
              exact ⟨false, by simp [ChainKvStore.Contains, henb, hmc, hcw, hput]⟩
  · have hwalk : ∀ j, (getWalk k s.chain 0).1 ≠ .failed j := by
      intro j hf
      obtain ⟨pre', t', hch, ht'⟩ := getWalk_failed s.chain k 0 j hf
      have hlast : t' = t := append_singleton_last pre' pre t' t (by rw [← hch, hchain])
      rw [hlast, hG] at ht'
      cases ht'
    have hgw : (∃ i v', (getWalk k s.chain 0).1 = .found i v') ∨
        (getWalk k s.chain 0).1 = .absent := by
      cases hx : (getWalk k s.chain 0).1 with
      | failed j => exact absurd hx (hwalk j)
      | found i v' => exact Or.inl ⟨i, v', rfl⟩
      | absent => exact Or.inr rfl
    cases henb : s.missingCacheEnabled with
    | false =>
      rcases hgw with ⟨i, v', hgw⟩ | hgw
      · exact ⟨some v', by simp [ChainKvStore.Get, henb, hgw]⟩
      · exact ⟨none, by simp [ChainKvStore.Get, henb, hgw]⟩
    | true =>
      cases hmc : s.missingCache.Contains k with
      | error e =>
        rcases hgw with ⟨i, v', hgw⟩ | hgw
        · exact ⟨some v', by simp [ChainKvStore.Get, henb, hmc, hgw]⟩
        · cases hput : s.missingCache.Put k with
          | ok mc' => exact ⟨none, by simp [ChainKvStore.Get, henb, hmc, hgw, hput]⟩
          | error e2 => exact ⟨none, by simp [ChainKvStore.Get, henb, hmc, hgw, hput]⟩
      | ok b =>
        cases b with
        | true => exact ⟨none, by simp [ChainKvStore.Get, henb, hmc]⟩
        | false =>
          rcases hgw with ⟨i, v', hgw⟩ | hgw
          · exact ⟨some v', by simp [ChainKvStore.Get, henb, hmc, hgw]⟩
          · cases hput : s.missingCache.Put k with
            | ok mc' => exact ⟨none, by simp [ChainKvStore.Get, henb, hmc, hgw, hput]⟩
            | error e2 => exact ⟨none, by simp [ChainKvStore.Get, henb, hmc, hgw, hput]⟩
  · by_cases hemp : (cachePhase s ks).1.isEmpty = true
    · exact ⟨(cachePhase s ks).2.1, by rw [getBatch_slice_early s ks (.kvmap vm) hemp]⟩
    · have hemp' : (cachePhase s ks).1.isEmpty = false := by simpa using hemp
      have hfail : (batchWalk s.chain 0 (cachePhase s ks).1 (.kvmap vm)).failed =
          none := by
        cases hf : (batchWalk s.chain 0 (cachePhase s ks).1 (.kvmap vm)).failed with
        | none => rfl
        | some j =>
          obtain ⟨pre', t', hch, ht'⟩ := batchWalk_failed_some _ _ _ _ _ hf
          have hlast : t' = t :=
            append_singleton_last pre' pre t' t (by rw [← hch, hchain])
          rw [hlast, hGB] at ht'
          cases ht'
      have hkv : isKvmap (batchWalk s.chain 0 (cachePhase s ks).1
          (.kvmap vm)).values = true := by
        rw [batchWalk_values_isKvmap]
        rfl
      obtain ⟨mii, hmi, _⟩ := interfaceToMap_kvmap
        (batchWalk s.chain 0 (cachePhase s ks).1 (.kvmap vm)).values hkv
      exact ⟨(batchWalk s.chain 0 (cachePhase s ks).1 (.kvmap vm)).todo ++
          (cachePhase s ks).2.1,
        by rw [getBatch_slice_ok s ks (.kvmap vm) mii hemp' hfail hmi]⟩
  · have hnone : ∀ j, (putLoop k v s.chain 0).1 ≠ some j := by
      intro j hf
      obtain ⟨pre', t', hch, ht'⟩ := putLoop_some s.chain k v 0 j hf
      have hlast : t' = t := append_singleton_last pre' pre t' t (by rw [← hch, hchain])
      rw [hlast, hP] at ht'
      cases ht'
    cases hloop : (putLoop k v s.chain 0).1 with
    | some i => exact absurd hloop (hnone i)
    | none =>
      cases henb : s.missingCacheEnabled with
      | false => simp [ChainKvStore.Put, hloop, henb]
      | true =>
        cases hdel : s.missingCache.Delete k with
        | ok mc' => simp [ChainKvStore.Put, hloop, henb, hdel]
        | error e => simp [ChainKvStore.Put, hloop, henb, hdel]
  · have hnone : ∀ j, (putBatchLoop (.kvmap vmw) s.chain 0).1 ≠ some j := by
      intro j hf
      obtain ⟨pre', t', hch, ht'⟩ := putBatchLoop_some s.chain (.kvmap vmw) 0 j hf
      have hlast : t' = t := append_singleton_last pre' pre t' t (by rw [← hch, hchain])
      rw [hlast, hPB] at ht'
      cases ht'
    cases hloop : (putBatchLoop (.kvmap vmw) s.chain 0).1 with
    | some i => exact absurd hloop (hnone i)
    | none =>
      cases henb : s.missingCacheEnabled with
      | false => simp [ChainKvStore.PutBatch, hloop, henb]
      | true =>
        simp [ChainKvStore.PutBatch, hloop, henb, interfaceToMapInterfaceInterface]

/-- Claim C3 witness: a chain of one always-failing tier followed by a
succeeding terminal tier; every operation completes without error. -/
theorem C3_terminal_ok_no_error_witness :
    (∃ b, ((⟨[⟨[], true, true, true, true, true⟩,
        ⟨[(GoVal.str "k", GoVal.int 7)], false, false, false, false, false⟩], true,
        ⟨[], false, false, false, false, false⟩⟩ : ChainKvStore).Contains
        (GoVal.str "k")).result = .ok b) ∧
      (∃ r, ((⟨[⟨[], true, true, true, true, true⟩,
          ⟨[(GoVal.str "k", GoVal.int 7)], false, false, false, false, false⟩], true,
          ⟨[], false, false, false, false, false⟩⟩ : ChainKvStore).Get
          (GoVal.str "k")).result = .ok r) ∧
      (∃ m, ((⟨[⟨[], true, true, true, true, true⟩,
          ⟨[(GoVal.str "k", GoVal.int 7)], false, false, false, false, false⟩], true,
          ⟨[], false, false, false, false, false⟩⟩ : ChainKvStore).GetBatch
          (.slice [GoVal.str "k", GoVal.str "x"]) (.kvmap [])).result = .ok m) ∧
      ((⟨[⟨[], true, true, true, true, true⟩,
          ⟨[(GoVal.str "k", GoVal.int 7)], false, false, false, false, false⟩], true,
          ⟨[], false, false, false, false, false⟩⟩ : ChainKvStore).Put
        (GoVal.str "k") (GoVal.int 9)).result = .ok () ∧
      ((⟨[⟨[], true, true, true, true, true⟩,
          ⟨[(GoVal.str "k", GoVal.int 7)], false, false, false, false, false⟩], true,
          ⟨[], false, false, false, false, false⟩⟩ : ChainKvStore).PutBatch
        (.kvmap [(GoVal.str "a", GoVal.int 1)])).result = .ok () :=
  C3_terminal_ok_no_error _ [⟨[], true, true, true, true, true⟩]
    ⟨[(GoVal.str "k", GoVal.int 7)], false, false, false, false, false⟩
    (GoVal.str "k") (GoVal.int 9) [GoVal.str "k", GoVal.str "x"] []
    [(GoVal.str "a", GoVal.int 1)] rfl (by decide)

/-! ### Claim C5: error policy during the GetBatch chain walk -/

/-- Claim C5 (confirmed): during the `GetBatch` chain walk, a tier error at
the terminal tier aborts the walk, recording the failing index, and the
operation surfaces it as the wrapped terminal-tier error; a tier error at a
non-terminal tier sets `refill[i]` to the whole current `todo` and the walk
continues with the next tier using the same `todo` and the same values
container. -/
theorem C5_walk_error_policy (s : ChainKvStore) (t r : Tier) (rs : List Tier)
    (i j : Nat) (todo ks : List GoVal) (vp : GoPayload)
    (hf : t.failGetBatch = true) :
    batchWalk [t] i todo vp =
      ⟨[], todo, vp, i, some i, [Event.tierGetBatchErr i todo]⟩ ∧
    batchWalk (t :: r :: rs) i todo vp =
      ⟨(i, todo) :: (batchWalk (r :: rs) (i + 1) todo vp).refills,
        (batchWalk (r :: rs) (i + 1) todo vp).todo,
        (batchWalk (r :: rs) (i + 1) todo vp).values,
        (batchWalk (r :: rs) (i + 1) todo vp).foundIn,
        (batchWalk (r :: rs) (i + 1) todo vp).failed,
        Event.tierGetBatchErr i todo :: (batchWalk (r :: rs) (i + 1) todo vp).trace⟩ ∧
    ((cachePhase s ks).1.isEmpty = false →
      (batchWalk s.chain 0 (cachePhase s ks).1 vp).failed = some j →
      (s.GetBatch (.slice ks) vp).result = .error (.tierFailed j)) := by
  refine ⟨?_, ?_, ?_⟩
  · rw [batchWalk_cons_err t [] i todo vp hf]
    rfl
  · rw [batchWalk_cons_err t (r :: rs) i todo vp hf]
    rfl
  · intro hemp hfail
    rw [getBatch_slice_failed s ks vp j hemp hfail]

/-- Claim C5 witness: the policy at a concrete failing tier (terminal and
non-terminal positions) and a concrete failing engine call. -/
theorem C5_walk_error_policy_witness :
    batchWalk [⟨[], false, false, true, false, false⟩] 0 [GoVal.str "a"] (.kvmap []) =
      ⟨[], [GoVal.str "a"], .kvmap [], 0, some 0,
        [Event.tierGetBatchErr 0 [GoVal.str "a"]]⟩ ∧
    batchWalk [⟨[], false, false, true, false, false⟩,
        ⟨[], false, false, false, false, false⟩] 0 [GoVal.str "a"] (.kvmap []) =
      ⟨(0, [GoVal.str "a"]) ::
          (batchWalk [⟨[], false, false, false, false, false⟩] 1
            [GoVal.str "a"] (.kvmap [])).refills,
        (batchWalk [⟨[], false, false, false, false, false⟩] 1
          [GoVal.str "a"] (.kvmap [])).todo,
        (batchWalk [⟨[], false, false, false, false, false⟩] 1
          [GoVal.str "a"] (.kvmap [])).values,
        (batchWalk [⟨[], false, false, false, false, false⟩] 1
          [GoVal.str "a"] (.kvmap [])).foundIn,
        (batchWalk [⟨[], false, false, false, false, false⟩] 1
          [GoVal.str "a"] (.kvmap [])).failed,
        Event.tierGetBatchErr 0 [GoVal.str "a"] ::
          (batchWalk [⟨[], false, false, false, false, false⟩] 1
            [GoVal.str "a"] (.kvmap [])).trace⟩ ∧
    ((cachePhase ⟨[⟨[], false, false, true, false, false⟩], false,
        ⟨[], false, false, false, false, false⟩⟩ [GoVal.str "a"]).1.isEmpty = false →
      (batchWalk [⟨[], false, false, true, false, false⟩] 0
        (cachePhase ⟨[⟨[], false, false, true, false, false⟩], false,
          ⟨[], false, false, false, false, false⟩⟩ [GoVal.str "a"]).1
        (.kvmap [])).failed = some 0 →
      ((⟨[⟨[], false, false, true, false, false⟩], false,
        ⟨[], false, false, false, false, false⟩⟩ : ChainKvStore).GetBatch
        (.slice [GoVal.str "a"]) (.kvmap [])).result = .error (.tierFailed 0)) ∧
    ((⟨[⟨[], false, false, true, false, false⟩], false,
        ⟨[], false, false, false, false, false⟩⟩ : ChainKvStore).GetBatch
        (.slice [GoVal.str "a"]) (.kvmap [])).result = .error (.tierFailed 0) := by
  have h := C5_walk_error_policy
    ⟨[⟨[], false, false, true, false, false⟩], false,
      ⟨[], false, false, false, false, false⟩⟩
    ⟨[], false, false, true, false, false⟩
    ⟨[], false, false, false, false, false⟩ [] 0 0 [GoVal.str "a"] [GoVal.str "a"]
    (.kvmap []) rfl
  exact ⟨h.1, h.2.1, h.2.2, h.2.2 rfl rfl⟩

/-! ### Claim C9: terminal batch-read failure is not atomic -/

theorem cachePhase_trace_reads (s : ChainKvStore) (ks : List GoVal) :
    ∀ e ∈ (cachePhase s ks).2.2, e.isWriteEvent = false := by
  intro e he
  unfold cachePhase at he
  by_cases henb : s.missingCacheEnabled
  · cases hmc : s.missingCache.GetBatch ks with
    | ok pr =>
      obtain ⟨still, hits⟩ := pr
      simp only [henb, if_true, hmc] at he
      simp only [List.mem_singleton] at he
      rw [he]
      rfl
    | error e2 =>
      simp only [henb, if_true, hmc] at he
      simp only [List.mem_singleton] at he
      rw [he]
      rfl
  · simp only [henb, if_false, Bool.false_eq_true] at he
    cases he

/-- Claim C9 (confirmed): when `GetBatch` fails because the terminal tier's
batch read returned an error, the engine performs no rollback: the chain and
negative-cache state are unchanged and the trace contains no write at all
(no backfill, no negative-cache update), while the caller's values container
is returned exactly as the walk left it, so every key already resolved by an
earlier tier remains populated in it. -/
theorem C9_terminal_error_no_rollback (s : ChainKvStore) (ks : List GoVal)
    (vm : List (GoVal × GoVal)) (j : Nat)
    (herr : (s.GetBatch (.slice ks) (.kvmap vm)).result = .error (.tierFailed j)) :
    (s.GetBatch (.slice ks) (.kvmap vm)).state = s ∧
      (s.GetBatch (.slice ks) (.kvmap vm)).values =
        (batchWalk s.chain 0 (cachePhase s ks).1 (.kvmap vm)).values ∧
      (∀ e ∈ (s.GetBatch (.slice ks) (.kvmap vm)).trace, e.isWriteEvent = false) ∧
      ∀ x ∈ (cachePhase s ks).1,
        x ∉ (batchWalk s.chain 0 (cachePhase s ks).1 (.kvmap vm)).todo →
        ∃ vm', (s.GetBatch (.slice ks) (.kvmap vm)).values = .kvmap vm' ∧
          (assocFind vm' x).isSome = true := by
  by_cases hemp : (cachePhase s ks).1.isEmpty = true
  · rw [getBatch_slice_early s ks (.kvmap vm) hemp] at herr
    cases herr
  · have hemp' : (cachePhase s ks).1.isEmpty = false := by simpa using hemp
    cases hfail : (batchWalk s.chain 0 (cachePhase s ks).1 (.kvmap vm)).failed with
    | none =>
      exfalso
      have hkv : isKvmap (batchWalk s.chain 0 (cachePhase s ks).1
          (.kvmap vm)).values = true := by
        rw [batchWalk_values_isKvmap]
        rfl
      obtain ⟨mii, hmi, _⟩ := interfaceToMap_kvmap
        (batchWalk s.chain 0 (cachePhase s ks).1 (.kvmap vm)).values hkv
      rw [getBatch_slice_ok s ks (.kvmap vm) mii hemp' hfail hmi] at herr
      cases herr
    | some j' =>
      have heq := getBatch_slice_failed s ks (.kvmap vm) j' hemp' hfail
      refine ⟨by rw [heq], by rw [heq], ?_, ?_⟩
      · intro e he
        rw [heq] at he
        simp only at he
        rcases List.mem_append.mp he with h1 | h2
        · exact cachePhase_trace_reads s ks e h1
        · exact batchWalk_trace_reads _ _ _ _ _ h2
      · intro x hx hxnt
        have hpop := batchWalk_populates s.chain 0 (cachePhase s ks).1 (.kvmap vm)
          x rfl hx hxnt
        have hkv : isKvmap (batchWalk s.chain 0 (cachePhase s ks).1
            (.kvmap vm)).values = true := by
          rw [batchWalk_values_isKvmap]
          rfl
        obtain ⟨vm', hvm'⟩ := isKvmap_exists _ hkv
        refine ⟨vm', by rw [heq]; exact hvm', ?_⟩
        rw [hvm'] at hpop
        exact hpop

/-- Claim C9 witness: a two-tier chain where the first tier resolves key `"a"`
and the terminal tier fails; `GetBatch(["a", "b"])` returns the wrapped
terminal error while `"a"` stays populated in the returned container and
nothing was written anywhere. -/
theorem C9_terminal_error_no_rollback_witness :
    ((⟨[⟨[(GoVal.str "a", GoVal.int 1)], false, false, false, false, false⟩,
        ⟨[], false, false, true, false, false⟩], false,
        ⟨[], false, false, false, false, false⟩⟩ : ChainKvStore).GetBatch
      (.slice [GoVal.str "a", GoVal.str "b"]) (.kvmap [])).state =
        ⟨[⟨[(GoVal.str "a", GoVal.int 1)], false, false, false, false, false⟩,
          ⟨[], false, false, true, false, false⟩], false,
          ⟨[], false, false, false, false, false⟩⟩ ∧
      ((⟨[⟨[(GoVal.str "a", GoVal.int 1)], false, false, false, false, false⟩,
          ⟨[], false, false, true, false, false⟩], false,
          ⟨[], false, false, false, false, false⟩⟩ : ChainKvStore).GetBatch
        (.slice [GoVal.str "a", GoVal.str "b"]) (.kvmap [])).values =
        (batchWalk [⟨[(GoVal.str "a", GoVal.int 1)], false, false, false, false, false⟩,
            ⟨[], false, false, true, false, false⟩] 0
          (cachePhase ⟨[⟨[(GoVal.str "a", GoVal.int 1)], false, false, false, false,
              false⟩, ⟨[], false, false, true, false, false⟩], false,
            ⟨[], false, false, false, false, false⟩⟩
            [GoVal.str "a", GoVal.str "b"]).1 (.kvmap [])).values ∧
      (∀ e ∈ ((⟨[⟨[(GoVal.str "a", GoVal.int 1)], false, false, false, false, false⟩,
          ⟨[], false, false, true, false, false⟩], false,
          ⟨[], false, false, false, false, false⟩⟩ : ChainKvStore).GetBatch
        (.slice [GoVal.str "a", GoVal.str "b"]) (.kvmap [])).trace,
        e.isWriteEvent = false) ∧
      ∀ x ∈ (cachePhase ⟨[⟨[(GoVal.str "a", GoVal.int 1)], false, false, false, false,
          false⟩, ⟨[], false, false, true, false, false⟩], false,
          ⟨[], false, false, false, false, false⟩⟩
          [GoVal.str "a", GoVal.str "b"]).1,
        x ∉ (batchWalk [⟨[(GoVal.str "a", GoVal.int 1)], false, false, false, false,
            false⟩, ⟨[], false, false, true, false, false⟩] 0
          (cachePhase ⟨[⟨[(GoVal.str "a", GoVal.int 1)], false, false, false, false,
              false⟩, ⟨[], false, false, true, false, false⟩], false,
            ⟨[], false, false, false, false, false⟩⟩
            [GoVal.str "a", GoVal.str "b"]).1 (.kvmap [])).todo →
        ∃ vm', ((⟨[⟨[(GoVal.str "a", GoVal.int 1)], false, false, false, false, false⟩,
            ⟨[], false, false, true, false, false⟩], false,
            ⟨[], false, false, false, false, false⟩⟩ : ChainKvStore).GetBatch
          (.slice [GoVal.str "a", GoVal.str "b"]) (.kvmap [])).values = .kvmap vm' ∧
          (assocFind vm' x).isSome = true :=
  C9_terminal_error_no_rollback
    ⟨[⟨[(GoVal.str "a", GoVal.int 1)], false, false, false, false, false⟩,
      ⟨[], false, false, true, false, false⟩], false,
      ⟨[], false, false, false, false, false⟩⟩
    [GoVal.str "a", GoVal.str "b"] [] 1 rfl

/-! ### Claim C6: scope of the backfill writes -/

theorem cacheWriteBack_events (s : ChainKvStore) (td : List GoVal) :
    ∀ e ∈ (cacheWriteBack s td).2, ∃ ks', e = Event.cachePutBatch ks' := by
  intro e he
  unfold cacheWriteBack at he
  by_cases hc : (s.missingCacheEnabled && !td.isEmpty) = true
  · simp only [hc, if_true] at he
    cases hmc : s.missingCache.PutBatchKeys td with
    | ok mc' =>
      rw [hmc] at he
      simp only [List.mem_singleton] at he
      exact ⟨td, he⟩
    | error e2 =>
      rw [hmc] at he
      simp only [List.mem_singleton] at he
      exact ⟨td, he⟩
  · have hc' : (s.missingCacheEnabled && !td.isEmpty) = false := by simpa using hc
    simp [hc'] at he

theorem batchWalk_refills_downward : ∀ (ts : List Tier) (i0 : Nat)
    (todo : List GoVal) (vp : GoPayload) (i : Nat) (r : List GoVal),
    (i, r) ∈ (batchWalk ts i0 todo vp).refills → ∀ j, i0 ≤ j → j ≤ i →
    ∃ rj, (j, rj) ∈ (batchWalk ts i0 todo vp).refills := by
  intro ts
  induction ts with
  | nil => intro i0 todo vp i r hir j hj1 hj2; cases hir
  | cons t rest ih =>
    intro i0 todo vp i r hir j hj1 hj2
    by_cases hf : t.failGetBatch = true
    · rw [batchWalk_cons_err t rest i0 todo vp hf] at hir ⊢
      by_cases hre : rest.isEmpty
      · simp only [hre, if_true] at hir
        cases hir
      · simp only [hre, if_false, Bool.false_eq_true] at hir ⊢
        rcases List.mem_cons.mp hir with h1 | h2
        · have hii : i = i0 := ((Prod.mk.injEq _ _ _ _).mp h1).1
          have hji : j = i0 := by omega
          exact ⟨todo, by rw [hji]; exact List.mem_cons_self _ _⟩
        · by_cases hji : j = i0
          · exact ⟨todo, by rw [hji]; exact List.mem_cons_self _ _⟩
          · have hj1' : i0 + 1 ≤ j := by omega
            obtain ⟨rj, hrj⟩ := ih (i0 + 1) todo vp i r h2 j hj1' hj2
            exact ⟨rj, List.mem_cons_of_mem _ hrj⟩
    · have hf' : t.failGetBatch = false := by simpa using hf
      rw [batchWalk_cons_ok t rest i0 todo vp hf'] at hir ⊢
      by_cases hm : (tierMissing t todo).isEmpty
      · simp only [hm, if_true, List.mem_singleton] at hir ⊢
        have hii : i = i0 := ((Prod.mk.injEq _ _ _ _).mp hir).1
        have hji : j = i0 := by omega
        exact ⟨tierMissing t todo, by rw [hji]⟩
      · simp only [hm, if_false, Bool.false_eq_true] at hir ⊢
        rcases List.mem_cons.mp hir with h1 | h2
        · have hii : i = i0 := ((Prod.mk.injEq _ _ _ _).mp h1).1
          have hji : j = i0 := by omega
          exact ⟨tierMissing t todo, by rw [hji]; exact List.mem_cons_self _ _⟩
        · by_cases hji : j = i0
          · exact ⟨tierMissing t todo, by rw [hji]; exact List.mem_cons_self _ _⟩
          · have hj1' : i0 + 1 ≤ j := by omega
            obtain ⟨rj, hrj⟩ :=
              ih (i0 + 1) (tierMissing t todo) (tierFill t todo vp) i r h2 j hj1' hj2
            exact ⟨rj, List.mem_cons_of_mem _ hrj⟩

/-- Claim C6 (amended): a backfill write to tier `i` carries only keys from
`refill[i]` — keys tier `i` reported missing (or that were carried over a
failing tier), never a key a tier at position `j ≤ i` reported present — that
are present in the coerced result map; and whenever the caller's destination
did not already hold such a key, it was found deeper in the chain (some
non-failing tier strictly deeper than `i` holds it).  The original claim's
unconditional "found deeper in the chain" fails for pre-populated caller
destinations (see the counterexample): the coerced result map of the source
includes the destination's pre-existing entries, so a stale caller entry for
a key no tier holds can be backfilled. -/
theorem C6_backfill_scope (s : ChainKvStore) (ks : List GoVal) (i : Nat)
    (bks : List GoVal) (vm0 : List (GoVal × GoVal))
    (hev : Event.tierPutBatch i bks ∈
      (s.GetBatch (.slice ks) (.kvmap vm0)).trace) :
    ∀ x ∈ bks,
      x ∈ refillLookup
        (batchWalk s.chain 0 (cachePhase s ks).1 (.kvmap vm0)).refills i ∧
      (∀ j t', j ≤ i → s.chain.get? j = some t' → t'.failGetBatch = false →
        assocFind t'.store x = none) ∧
      (assocFind vm0 x = none →
        ∃ j' t', i < j' ∧ s.chain.get? j' = some t' ∧ t'.failGetBatch = false ∧
          (assocFind t'.store x).isSome = true) := by
  by_cases hemp : (cachePhase s ks).1.isEmpty = true
  · exfalso
    rw [getBatch_slice_early s ks (.kvmap vm0) hemp] at hev
    have hw := cachePhase_trace_reads s ks _ hev
    simp [Event.isWriteEvent] at hw
  · have hemp' : (cachePhase s ks).1.isEmpty = false := by simpa using hemp
    cases hfail : (batchWalk s.chain 0 (cachePhase s ks).1 (.kvmap vm0)).failed with
    | some j0 =>
      exfalso
      rw [getBatch_slice_failed s ks (.kvmap vm0) j0 hemp' hfail] at hev
      simp only at hev
      rcases List.mem_append.mp hev with h1 | h2
      · have hw := cachePhase_trace_reads s ks _ h1
        simp [Event.isWriteEvent] at hw
      · have hw := batchWalk_trace_reads _ _ _ _ _ h2
        simp [Event.isWriteEvent] at hw
    | none =>
      have hkv : isKvmap
          (batchWalk s.chain 0 (cachePhase s ks).1 (.kvmap vm0)).values = true := by
        rw [batchWalk_values_isKvmap]
        rfl
      obtain ⟨mii, hmi, _⟩ := interfaceToMap_kvmap _ hkv
      rw [getBatch_slice_ok s ks (.kvmap vm0) mii hemp' hfail hmi] at hev
      simp only at hev
      rcases List.mem_append.mp hev with h12 | hcw
      · rcases List.mem_append.mp h12 with h1 | hbf
        · exfalso
          rcases List.mem_append.mp h1 with hpre | hwt
          · have hw := cachePhase_trace_reads s ks _ hpre
            simp [Event.isWriteEvent] at hw
          · have hw := batchWalk_trace_reads _ _ _ _ _ hwt
            simp [Event.isWriteEvent] at hw
        · obtain ⟨j2, hj2, heq⟩ := batchBackfill_events _ _ _ _ _ hbf
          injection heq with hij hbksq
          intro x hx
          rw [hbksq] at hx
          have hpair := mem_backfill_pairs mii _ x hx
          rw [← hij] at hpair
          obtain ⟨hxr, hxm⟩ := hpair
          obtain ⟨ri, hri, hxri⟩ := refillLookup_mem _ i x hxr
          have hall : ∀ j t', j ≤ i → s.chain.get? j = some t' →
              t'.failGetBatch = false → assocFind t'.store x = none := by
            intro j t' hji hget hfal
            obtain ⟨rj, hrj⟩ := batchWalk_refills_downward s.chain 0
              (cachePhase s ks).1 (.kvmap vm0) i ri hri j (Nat.zero_le j) hji
            have hxj : x ∈ rj := batchWalk_refills_mono s.chain 0
              (cachePhase s ks).1 (.kvmap vm0) j i rj ri hrj hri hji x hxri
            obtain ⟨-, t'', hget'', hprop⟩ := batchWalk_refills_tier s.chain 0
              (cachePhase s ks).1 (.kvmap vm0) j rj hrj
            rw [Nat.sub_zero] at hget''
            rw [hget] at hget''
            injection hget'' with ht2
            rcases hprop with hfailj | hnone
            · rw [← ht2] at hfailj
              rw [hfal] at hfailj
              cases hfailj
            · rw [← ht2] at hnone
              exact hnone x hxj
          refine ⟨hxr, hall, ?_⟩
          intro hvnone
          have hhas : payloadHas
              (batchWalk s.chain 0 (cachePhase s ks).1 (.kvmap vm0)).values x =
                true := by
            rw [hmi]
            exact hxm
          rcases batchWalk_values_source s.chain 0 (cachePhase s ks).1 (.kvmap vm0)
              x hhas with h0 | ⟨j', t', hj', hget', hfal', hsome'⟩
          · simp [payloadHas, hvnone] at h0
          · rw [Nat.sub_zero] at hget'
            refine ⟨j', t', ?_, hget', hfal', hsome'⟩
            by_contra hle
            have hji : j' ≤ i := by omega
            have hn := hall j' t' hji hget' hfal'
            rw [hn] at hsome'
            simp at hsome'
      · exfalso
        obtain ⟨ks', hks'⟩ := cacheWriteBack_events s _ _ hcw
        exact Event.noConfusion hks'

/-- Claim C6 witness: the scenario with chain `[M, D]`, `M` holding only
`"a"`, `D` holding `"a"` and `"b"`, and a fresh empty destination;
`GetBatch(["a","b","c"])` backfills exactly `"b"` into tier 0, and the scope
theorem applies to that key. -/
theorem C6_backfill_scope_witness :
    GoVal.str "b" ∈ refillLookup
        (batchWalk [⟨[(GoVal.str "a", GoVal.int 1)], false, false, false, false, false⟩,
            ⟨[(GoVal.str "a", GoVal.int 1), (GoVal.str "b", GoVal.int 2)],
              false, false, false, false, false⟩] 0
          (cachePhase ⟨[⟨[(GoVal.str "a", GoVal.int 1)], false, false, false, false,
              false⟩, ⟨[(GoVal.str "a", GoVal.int 1), (GoVal.str "b", GoVal.int 2)],
              false, false, false, false, false⟩], false,
              ⟨[], false, false, false, false, false⟩⟩
            [GoVal.str "a", GoVal.str "b", GoVal.str "c"]).1 (.kvmap [])).refills 0 ∧
      (∀ j t', j ≤ 0 →
        ([⟨[(GoVal.str "a", GoVal.int 1)], false, false, false, false, false⟩,
          ⟨[(GoVal.str "a", GoVal.int 1), (GoVal.str "b", GoVal.int 2)],
            false, false, false, false, false⟩] : List Tier).get? j = some t' →
        t'.failGetBatch = false → assocFind t'.store (GoVal.str "b") = none) ∧
      (assocFind [] (GoVal.str "b") = none →
        ∃ j' t', 0 < j' ∧
          ([⟨[(GoVal.str "a", GoVal.int 1)], false, false, false, false, false⟩,
            ⟨[(GoVal.str "a", GoVal.int 1), (GoVal.str "b", GoVal.int 2)],
              false, false, false, false, false⟩] : List Tier).get? j' = some t' ∧
          t'.failGetBatch = false ∧
          (assocFind t'.store (GoVal.str "b")).isSome = true) :=
  C6_backfill_scope
    ⟨[⟨[(GoVal.str "a", GoVal.int 1)], false, false, false, false, false⟩,
      ⟨[(GoVal.str "a", GoVal.int 1), (GoVal.str "b", GoVal.int 2)],
        false, false, false, false, false⟩], false,
      ⟨[], false, false, false, false, false⟩⟩
    [GoVal.str "a", GoVal.str "b", GoVal.str "c"] 0 [GoVal.str "b"] [] (by decide)
    (GoVal.str "b") (by decide)

/-- Claim C6 counterexample: a chain of two tiers with empty stores and a
caller destination already holding `"x"`.  `GetBatch(["x"])` backfills `"x"`
into tier 0 (and tier 1) although no tier of the chain holds `"x"` — the
written key was reported missing by every tier and found nowhere deeper in
the chain, coming only from the caller's pre-populated destination.  This
refutes the original claim's "contains only keys that ... were found deeper
in the chain" for every GetBatch call. -/
theorem C6_dirty_destination_counterexample :
    Event.tierPutBatch 0 [GoVal.str "x"] ∈
      ((⟨[⟨[], false, false, false, false, false⟩,
          ⟨[], false, false, false, false, false⟩], false,
          ⟨[], false, false, false, false, false⟩⟩ : ChainKvStore).GetBatch
        (.slice [GoVal.str "x"])
        (.kvmap [(GoVal.str "x", GoVal.int 9)])).trace ∧
      assocFind (⟨[], false, false, false, false, false⟩ : Tier).store
        (GoVal.str "x") = none := by
  exact ⟨by decide, rfl⟩

end Gosoline
